import Mathlib

/-!
# app_des.c : the Triple-DES test-case handler of libacvp

A shallow embedding of `src/app/app_des.c` (`app_des_cleanup`, `app_des_handler`).

* The OpenSSL EVP interface the handler calls is not part of this repository; it is
  taken as a parameter (`EVP Ctx`): one field per EVP function the source calls.
  The `int` results of those functions are ignored by the source, so they are not
  part of the interface.
* The process-wide `static EVP_CIPHER_CTX *glb_cipher_ctx` is passed in and out
  explicitly as an `Option Ctx` (`none` is `NULL`).
* The test case is passed in and returned; buffers are byte lists. The pointers inside a
  non-null test case (`tc.symmetric` and the buffers) are valid, as the source takes them
  to be, and the buffers do not overlap.
* Every call the handler makes that can change something (EVP functions, `memcpy_s`,
  `printf`) is logged, in program order, in `Outcome.trace`. The read-only accessor of
  line 105 (`cipher_ctx->iv`, a plain field address, up to OpenSSL 1.1.0, the call
  `EVP_CIPHER_CTX_iv(cipher_ctx)` above it) is not logged; its result is the local
  pointer `ctx_iv`, taken once on entry to the Monte Carlo branch, before any
  initialisation, and every later copy reads through that same pointer.
-/

namespace AppDes

/-- An `unsigned char`. -/
abbrev Byte := Nat

/-- The enumerators of `ACVP_CIPHER` named in `app_des_handler`; every other value of the
C enum (the header is not among the sources) is `OTHER n`. -/
inductive ACVP_CIPHER where
  | ACVP_TDES_ECB
  | ACVP_TDES_CBC
  | ACVP_TDES_OFB
  | ACVP_TDES_CFB64
  | ACVP_TDES_CFB8
  | ACVP_TDES_CFB1
  | ACVP_TDES_CTR
  | OTHER (n : Nat)
deriving DecidableEq, Repr

/-- The direction enum: the two enumerators the handler compares with, and any other value. -/
inductive ACVP_SYM_CIPH_DIR where
  | ACVP_SYM_CIPH_DIR_ENCRYPT
  | ACVP_SYM_CIPH_DIR_DECRYPT
  | OTHER (n : Nat)
deriving DecidableEq, Repr

/-- The test type enum: the handler only compares with `ACVP_SYM_TEST_TYPE_MCT`. -/
inductive ACVP_SYM_CIPH_TESTTYPE where
  | ACVP_SYM_TEST_TYPE_MCT
  | OTHER (n : Nat)
deriving DecidableEq, Repr

/-- The fields of `ACVP_SYM_CIPHER_TC` that `app_des_handler` reads or writes. -/
structure ACVP_SYM_CIPHER_TC where
  cipher : ACVP_CIPHER
  test_type : ACVP_SYM_CIPH_TESTTYPE
  direction : ACVP_SYM_CIPH_DIR
  key : List Byte
  key_len : Nat
  iv : List Byte
  pt : List Byte
  pt_len : Nat
  ct : List Byte
  ct_len : Nat
  iv_ret : List Byte
  iv_ret_after : List Byte
  mct_index : Nat
deriving DecidableEq, Repr

/-- The test case: `test_case->tc.symmetric` is the symmetric-cipher case. -/
structure ACVP_TEST_CASE where
  symmetric : ACVP_SYM_CIPHER_TC
deriving DecidableEq, Repr

/-- The cipher descriptors returned by `EVP_des_ede3_ecb()` ... `EVP_des_ede3_cfb1()`. -/
inductive EVP_CIPHER where
  | EVP_des_ede3_ecb
  | EVP_des_ede3_cbc
  | EVP_des_ede3_ofb
  | EVP_des_ede3_cfb64
  | EVP_des_ede3_cfb8
  | EVP_des_ede3_cfb1
deriving DecidableEq, Repr

/-- The OpenSSL constant `EVP_CIPH_FLAG_LENGTH_BITS`. -/
def EVP_CIPH_FLAG_LENGTH_BITS : Nat := 0x2000

/-- The source's `#define SYM_IV_BYTE_MAX 128`. -/
def SYM_IV_BYTE_MAX : Nat := 128

/-- The EVP functions called by `app_des.c`, over an engine context type `Ctx`.
`EVP_CIPHER_CTX_new` is `none` when the allocation fails. `EVP_CipherInit_ex` takes the
cipher, the key, the IV pointer (`none` is `NULL`) and the `enc` flag (the `impl` argument
is always `NULL` in the source). `EVP_Cipher ctx out inp inl` returns the new context and
the new contents of the `out` buffer. `EVP_CIPHER_CTX_iv c` is the pointer the accessor of
line 105 returns when the context is `c`: `none` is `NULL`, and a pointer is given by what
is read through it in each later state of the context (the memory it points to belongs to
the engine). Whether a pointer taken in one state still shows the IV register in a later
state is a property of the engine, not of this interface. -/
structure EVP (Ctx : Type) where
  EVP_CIPHER_CTX_new : Option Ctx
  EVP_CipherInit_ex : Ctx → EVP_CIPHER → List Byte → Option (List Byte) → Int → Ctx
  EVP_CIPHER_CTX_set_padding : Ctx → Int → Ctx
  EVP_CIPHER_CTX_set_flags : Ctx → Nat → Ctx
  EVP_Cipher : Ctx → List Byte → List Byte → Nat → Ctx × List Byte
  EVP_CIPHER_CTX_iv : Ctx → Option (Ctx → List Byte)
  EVP_CIPHER_CTX_cleanup : Ctx → Ctx

/-- The two IV output buffers of the test case. -/
inductive IvField where
  | iv_ret
  | iv_ret_after
deriving DecidableEq, Repr

/-- The two data buffers of the test case. -/
inductive DataField where
  | pt
  | ct
deriving DecidableEq, Repr

/-- One call made by the source, with its arguments. `EVP_Cipher out inp inl` names the
output buffer, the input bytes and the length argument; `memcpy_s dest src` names the
destination buffer and the 8 bytes found at the source pointer (`none`: a null source). -/
inductive Event where
  | printf (msg : String)
  | EVP_CIPHER_CTX_new
  | EVP_CipherInit_ex (cipher : EVP_CIPHER) (key : List Byte) (iv : Option (List Byte)) (enc : Int)
  | EVP_CIPHER_CTX_set_padding (pad : Int)
  | EVP_CIPHER_CTX_set_flags (flags : Nat)
  | EVP_Cipher (out : DataField) (inp : List Byte) (inl : Nat)
  | memcpy_s (dest : IvField) (src : Option (List Byte))
  | EVP_CIPHER_CTX_cleanup
  | EVP_CIPHER_CTX_free
deriving DecidableEq, Repr

/-- Line 43. -/
def msg_key_length : String := "Unsupported DES key length\n"

/-- Line 50. -/
def msg_alloc : String := "Failed to allocate global cipher_ctx"

/-- Line 89. -/
def msg_mode : String := "Error: Unsupported DES mode requested by ACVP server\n"

/-- Lines 141 and 165. -/
def msg_direction : String := "Unsupported direction\n"

/-- The first `n` bytes found at a pointer to the buffer `src` (a position past the end of
the list reads as 0). -/
def read_bytes (src : List Byte) (n : Nat) : List Byte :=
  (List.range n).map (fun i => src.getD i 0)

/-- The bound `RSIZE_MAX_MEM` of the safe C library (256 MB). -/
def RSIZE_MAX_MEM : Nat := 256 * 1024 * 1024

/-- The first `dmax` bytes of `dest` set to 0, as the safe C library does on a constraint
violation. -/
def zero_fill (dest : List Byte) (dmax : Nat) : List Byte :=
  List.replicate dmax 0 ++ dest.drop dmax

/-- The call `memcpy_s(dest, dmax, src, smax)` of the safe C library (`safe_lib.h`, not
among the sources; this is its documented behaviour) on a non-null `dest` (`src` is `none`
for a null source pointer); its result is ignored by the source. With
`dmax` 0 or above `RSIZE_MAX_MEM` nothing is written. With `smax` 0, `smax > dmax` or a null
source the first `dmax` bytes of `dest` are set to 0. Otherwise `smax` bytes of `src` are
copied to the start of `dest`. The buffers of the test case do not overlap the engine's
memory. -/
def memcpy_s (dest : List Byte) (dmax : Nat) (src : Option (List Byte)) (smax : Nat) :
    List Byte :=
  if dmax = 0 ∨ RSIZE_MAX_MEM < dmax then dest
  else if smax = 0 ∨ dmax < smax then zero_fill dest dmax
  else
    match src with
    | none => zero_fill dest dmax
    | some bytes => read_bytes bytes smax ++ dest.drop smax

/-- What is found through the pointer `ctx_iv` when the context is `c`: `none` for a null
pointer, otherwise the bytes at the pointer. -/
def load_iv {Ctx : Type} (ctx_iv : Option (Ctx → List Byte)) (c : Ctx) :
    Option (List Byte) :=
  ctx_iv.map (fun p => p c)

/-- The local state of a run of `app_des_handler` after the mode switch: the context
`cipher_ctx` points to, the test case, the calls made so far, and two ghost fields: the
context as it was passed to `EVP_Cipher` and as `EVP_Cipher` left it (`none`: not called). -/
structure Frame (Ctx : Type) where
  cipher_ctx : Ctx
  tc : ACVP_SYM_CIPHER_TC
  trace : List Event
  cipher_in : Option Ctx
  cipher_out : Option Ctx

/-- What a call of `app_des_handler` leaves: the returned `int`, the test case, the global
`glb_cipher_ctx`, the calls made, and the two ghost fields of `Frame`. -/
structure Outcome (Ctx : Type) where
  ret : Int
  test_case : Option ACVP_TEST_CASE
  glb_cipher_ctx : Option Ctx
  trace : List Event
  cipher_in : Option Ctx
  cipher_out : Option Ctx

variable {Ctx : Type}

/-- Lines 22-25: `app_des_cleanup`. Returns the new `glb_cipher_ctx` and the calls made. -/
def app_des_cleanup (glb_cipher_ctx : Option Ctx) : Option Ctx × List Event :=
  match glb_cipher_ctx with
  | some _ => (none, [Event.EVP_CIPHER_CTX_free])
  | none => (none, [])

/-- Lines 47-53: the global context is allocated when it is `NULL`. `none`: the allocation
failed; otherwise the context and the calls made. -/
def ensure_ctx (E : EVP Ctx) (glb_cipher_ctx : Option Ctx) : Option (Ctx × List Event) :=
  match glb_cipher_ctx with
  | some c => some (c, [])
  | none =>
    match E.EVP_CIPHER_CTX_new with
    | some c => some (c, [Event.EVP_CIPHER_CTX_new])
    | none => none

/-- Lines 58-93: the mode switch. Gives `cipher` and the local `iv` pointer (`none` is the
initial `0`); `none` for the `ACVP_TDES_CTR` / `default` branch. -/
def select_cipher (tc : ACVP_SYM_CIPHER_TC) : Option (EVP_CIPHER × Option (List Byte)) :=
  match tc.cipher with
  | .ACVP_TDES_ECB => some (.EVP_des_ede3_ecb, none)
  | .ACVP_TDES_CBC => some (.EVP_des_ede3_cbc, some tc.iv)
  | .ACVP_TDES_OFB => some (.EVP_des_ede3_ofb, some tc.iv)
  | .ACVP_TDES_CFB64 => some (.EVP_des_ede3_cfb64, some tc.iv)
  | .ACVP_TDES_CFB8 => some (.EVP_des_ede3_cfb8, some tc.iv)
  | .ACVP_TDES_CFB1 => some (.EVP_des_ede3_cfb1, some tc.iv)
  | .ACVP_TDES_CTR => none
  | .OTHER _ => none

/-- The statement `EVP_CipherInit_ex(cipher_ctx, cipher, NULL, tc->key, iv, enc);`. -/
def call_init (E : EVP Ctx) (cipher : EVP_CIPHER) (iv : Option (List Byte)) (enc : Int)
    (f : Frame Ctx) : Frame Ctx :=
  { f with
    cipher_ctx := E.EVP_CipherInit_ex f.cipher_ctx cipher f.tc.key iv enc
    trace := f.trace ++ [Event.EVP_CipherInit_ex cipher f.tc.key iv enc] }

/-- The statement `EVP_CIPHER_CTX_set_padding(cipher_ctx, 0);`. -/
def call_set_padding (E : EVP Ctx) (f : Frame Ctx) : Frame Ctx :=
  { f with
    cipher_ctx := E.EVP_CIPHER_CTX_set_padding f.cipher_ctx 0
    trace := f.trace ++ [Event.EVP_CIPHER_CTX_set_padding 0] }

/-- Lines 117-119 (and 133-135, 151-153, 159-161):
`if (tc->cipher == ACVP_TDES_CFB1) EVP_CIPHER_CTX_set_flags(cipher_ctx, EVP_CIPH_FLAG_LENGTH_BITS);`. -/
def call_set_flags_if_cfb1 (E : EVP Ctx) (f : Frame Ctx) : Frame Ctx :=
  if f.tc.cipher = .ACVP_TDES_CFB1 then
    { f with
      cipher_ctx := E.EVP_CIPHER_CTX_set_flags f.cipher_ctx EVP_CIPH_FLAG_LENGTH_BITS
      trace := f.trace ++ [Event.EVP_CIPHER_CTX_set_flags EVP_CIPH_FLAG_LENGTH_BITS] }
  else f

/-- The statement `memcpy_s(tc->iv_ret, SYM_IV_BYTE_MAX, ctx_iv, 8);`, where `ctx_iv` is the
pointer taken at line 105: the source is what is found through it now. -/
def copy_iv_ret (ctx_iv : Option (Ctx → List Byte)) (f : Frame Ctx) : Frame Ctx :=
  { f with
    tc := { f.tc with
      iv_ret := memcpy_s f.tc.iv_ret SYM_IV_BYTE_MAX (load_iv ctx_iv f.cipher_ctx) 8 }
    trace := f.trace ++
      [Event.memcpy_s .iv_ret ((load_iv ctx_iv f.cipher_ctx).map (fun b => read_bytes b 8))] }

/-- The statement `memcpy_s(tc->iv_ret_after, SYM_IV_BYTE_MAX, ctx_iv, 8);`, through the same
pointer `ctx_iv` of line 105. -/
def copy_iv_ret_after (ctx_iv : Option (Ctx → List Byte)) (f : Frame Ctx) : Frame Ctx :=
  { f with
    tc := { f.tc with
      iv_ret_after :=
        memcpy_s f.tc.iv_ret_after SYM_IV_BYTE_MAX (load_iv ctx_iv f.cipher_ctx) 8 }
    trace := f.trace ++
      [Event.memcpy_s .iv_ret_after
        ((load_iv ctx_iv f.cipher_ctx).map (fun b => read_bytes b 8))] }

/-- The statements `EVP_Cipher(cipher_ctx, tc->ct, tc->pt, tc->pt_len); tc->ct_len = tc->pt_len;`. -/
def transform_encrypt (E : EVP Ctx) (f : Frame Ctx) : Frame Ctx :=
  { cipher_ctx := (E.EVP_Cipher f.cipher_ctx f.tc.ct f.tc.pt f.tc.pt_len).1
    tc := { f.tc with
      ct := (E.EVP_Cipher f.cipher_ctx f.tc.ct f.tc.pt f.tc.pt_len).2
      ct_len := f.tc.pt_len }
    trace := f.trace ++ [Event.EVP_Cipher .ct f.tc.pt f.tc.pt_len]
    cipher_in := some f.cipher_ctx
    cipher_out := some (E.EVP_Cipher f.cipher_ctx f.tc.ct f.tc.pt f.tc.pt_len).1 }

/-- The statements `EVP_Cipher(cipher_ctx, tc->pt, tc->ct, tc->ct_len); tc->pt_len = tc->ct_len;`. -/
def transform_decrypt (E : EVP Ctx) (f : Frame Ctx) : Frame Ctx :=
  { cipher_ctx := (E.EVP_Cipher f.cipher_ctx f.tc.pt f.tc.ct f.tc.ct_len).1
    tc := { f.tc with
      pt := (E.EVP_Cipher f.cipher_ctx f.tc.pt f.tc.ct f.tc.ct_len).2
      pt_len := f.tc.ct_len }
    trace := f.trace ++ [Event.EVP_Cipher .pt f.tc.ct f.tc.ct_len]
    cipher_in := some f.cipher_ctx
    cipher_out := some (E.EVP_Cipher f.cipher_ctx f.tc.pt f.tc.ct f.tc.ct_len).1 }

/-- The statement `EVP_CIPHER_CTX_cleanup(cipher_ctx);`. -/
def call_cleanup (E : EVP Ctx) (f : Frame Ctx) : Frame Ctx :=
  { f with
    cipher_ctx := E.EVP_CIPHER_CTX_cleanup f.cipher_ctx
    trace := f.trace ++ [Event.EVP_CIPHER_CTX_cleanup] }

/-- Lines 99-143: the Monte Carlo branch up to its direction chain (`enc` is 1 for encrypt,
0 for decrypt); `none` is the `Unsupported direction` branch. The local `ctx_iv` is set
first (line 105), from the context as it is on entry, and is not set again. -/
def mct_direction (E : EVP Ctx) (cipher : EVP_CIPHER) (iv : Option (List Byte))
    (f : Frame Ctx) : Option (Frame Ctx) :=
  let ctx_iv := E.EVP_CIPHER_CTX_iv f.cipher_ctx
  if f.tc.direction = .ACVP_SYM_CIPH_DIR_ENCRYPT then
    let f1 := if f.tc.mct_index = 0 then call_set_padding E (call_init E cipher iv 1 f)
              else copy_iv_ret ctx_iv f
    some (copy_iv_ret_after ctx_iv (transform_encrypt E (call_set_flags_if_cfb1 E f1)))
  else if f.tc.direction = .ACVP_SYM_CIPH_DIR_DECRYPT then
    let f1 := if f.tc.mct_index = 0 then call_set_padding E (call_init E cipher iv 0 f)
              else copy_iv_ret ctx_iv f
    some (copy_iv_ret_after ctx_iv (transform_decrypt E (call_set_flags_if_cfb1 E f1)))
  else none

/-- Lines 148-167: the direction chain of the other (single-shot) branch. -/
def single_direction (E : EVP Ctx) (cipher : EVP_CIPHER) (iv : Option (List Byte))
    (f : Frame Ctx) : Option (Frame Ctx) :=
  if f.tc.direction = .ACVP_SYM_CIPH_DIR_ENCRYPT then
    some (transform_encrypt E (call_set_flags_if_cfb1 E
      (call_set_padding E (call_init E cipher iv 1 f))))
  else if f.tc.direction = .ACVP_SYM_CIPH_DIR_DECRYPT then
    some (transform_decrypt E (call_set_flags_if_cfb1 E
      (call_set_padding E (call_init E cipher iv 0 f))))
  else none

/-- The `return 1;` exits: the test case is as it was on entry. -/
def fail_with (t : Option ACVP_TEST_CASE) (glb_cipher_ctx : Option Ctx) (trace : List Event) :
    Outcome Ctx :=
  { ret := 1, test_case := t, glb_cipher_ctx := glb_cipher_ctx, trace := trace,
    cipher_in := none, cipher_out := none }

/-- The `return 0;` exit (line 172). `glb_cipher_ctx` still points to the same context. -/
def return_ok (f : Frame Ctx) : Outcome Ctx :=
  { ret := 0, test_case := some { symmetric := f.tc }, glb_cipher_ctx := some f.cipher_ctx,
    trace := f.trace, cipher_in := f.cipher_in, cipher_out := f.cipher_out }

/-- Lines 27-173: `app_des_handler`, from the value of `glb_cipher_ctx` on entry and the
`test_case` pointer (`none` is `NULL`). -/
def app_des_handler (E : EVP Ctx) (glb_cipher_ctx : Option Ctx)
    (test_case : Option ACVP_TEST_CASE) : Outcome Ctx :=
  match test_case with
  | none => fail_with none glb_cipher_ctx []
  | some t =>
    let tc := t.symmetric
    if tc.key_len ≠ 192 then
      fail_with (some t) glb_cipher_ctx [Event.printf msg_key_length]
    else
      match ensure_ctx E glb_cipher_ctx with
      | none => fail_with (some t) none [Event.EVP_CIPHER_CTX_new, Event.printf msg_alloc]
      | some (cipher_ctx, tr) =>
        match select_cipher tc with
        | none => fail_with (some t) (some cipher_ctx) (tr ++ [Event.printf msg_mode])
        | some (cipher, iv) =>
          let f : Frame Ctx :=
            { cipher_ctx := cipher_ctx, tc := tc, trace := tr, cipher_in := none,
              cipher_out := none }
          if tc.test_type = .ACVP_SYM_TEST_TYPE_MCT then
            match mct_direction E cipher iv f with
            | none => fail_with (some t) (some cipher_ctx) (tr ++ [Event.printf msg_direction])
            | some f1 =>
              return_ok (if tc.mct_index = 9999 then call_cleanup E f1 else f1)
          else
            match single_direction E cipher iv f with
            | none => fail_with (some t) (some cipher_ctx) (tr ++ [Event.printf msg_direction])
            | some f1 => return_ok (call_cleanup E f1)

/-- A sequence of calls of `app_des_handler`, one per test case, each starting from the
`glb_cipher_ctx` the previous call left; the outcomes in call order. -/
def run_chain (E : EVP Ctx) (glb_cipher_ctx : Option Ctx) :
    List ACVP_TEST_CASE → List (Outcome Ctx)
  | [] => []
  | t :: ts =>
    app_des_handler E glb_cipher_ctx (some t) ::
      run_chain E (app_des_handler E glb_cipher_ctx (some t)).glb_cipher_ctx ts

/-- The 8 bytes found, when the context is `c`, through the pointer the accessor returned
when the context was `c0`; `none` when that pointer is null. -/
def iv_through (E : EVP Ctx) (c0 c : Ctx) : Option (List Byte) :=
  (load_iv (E.EVP_CIPHER_CTX_iv c0) c).map (fun b => read_bytes b 8)

/-- The 8-byte IV register of an engine context `c`, as the accessor shows it when it is
called on `c` and read at once; `none` when the accessor returns a null pointer for `c`. -/
def iv_register (E : EVP Ctx) (c : Ctx) : Option (List Byte) :=
  iv_through E c c

/-- The spec's `configure` as the source performs it on a context `c`: `EVP_CipherInit_ex`
with the cipher, key, IV pointer and `enc` flag, then `EVP_CIPHER_CTX_set_padding(ctx, 0)`,
then, for a bit-oriented variant, `EVP_CIPHER_CTX_set_flags(ctx, EVP_CIPH_FLAG_LENGTH_BITS)`. -/
def configure (E : EVP Ctx) (c : Ctx) (cipher : EVP_CIPHER) (key : List Byte)
    (iv : Option (List Byte)) (enc : Int) (bit_oriented : Bool) : Ctx :=
  if bit_oriented then
    E.EVP_CIPHER_CTX_set_flags
      (E.EVP_CIPHER_CTX_set_padding (E.EVP_CipherInit_ex c cipher key iv enc) 0)
      EVP_CIPH_FLAG_LENGTH_BITS
  else E.EVP_CIPHER_CTX_set_padding (E.EVP_CipherInit_ex c cipher key iv enc) 0

/-! ## A small engine on which the statements below are evaluated -/

/-- The context of the small engine: the cipher set by the last initialisation (`none`: a
context never initialised, or cleaned up), key, IV register, `enc` flag and flags word. -/
structure ToyCtx where
  cipher : Option EVP_CIPHER
  key : List Byte
  iv : List Byte
  enc : Int
  flags : Nat
deriving DecidableEq, Repr

/-- The context `EVP_CIPHER_CTX_new` and `EVP_CIPHER_CTX_cleanup` of the small engine give. -/
def toy_blank : ToyCtx := { cipher := none, key := [], iv := [], enc := 0, flags := 0 }

/-- The transform of the small engine: every byte of the first `inl` input bytes is
incremented (encrypt) or decremented (decrypt) modulo 256; the bytes produced overwrite the
start of `out`, and the IV register takes the first 8 bytes produced. -/
def toy_cipher (c : ToyCtx) (out inp : List Byte) (inl : Nat) : ToyCtx × List Byte :=
  let data := (inp.take inl).map (fun b => if c.enc = 1 then (b + 1) % 256 else (b + 255) % 256)
  ({ c with iv := read_bytes data 8 }, data ++ out.drop data.length)

/-- A small engine with the interface `EVP`. Its accessor returns the address of the IV
register inside the context, whatever the state of the context (as `cipher_ctx->iv` and
the accessor of OpenSSL 1.1 do): what is read through it is always the current register. -/
def toyEVP : EVP ToyCtx where
  EVP_CIPHER_CTX_new := some toy_blank
  EVP_CipherInit_ex := fun c cipher key iv enc =>
    { cipher := some cipher, key := key, iv := iv.getD c.iv, enc := enc, flags := 0 }
  EVP_CIPHER_CTX_set_padding := fun c _ => c
  EVP_CIPHER_CTX_set_flags := fun c fl => { c with flags := Nat.lor c.flags fl }
  EVP_Cipher := toy_cipher
  EVP_CIPHER_CTX_iv := fun _ => some (fun c => c.iv)
  EVP_CIPHER_CTX_cleanup := fun _ => toy_blank

/-- The small engine when no context can be allocated. -/
def toyEVP_no_alloc : EVP ToyCtx := { toyEVP with EVP_CIPHER_CTX_new := none }

/-- The small engine with the accessor of OpenSSL 3: on a context that has no cipher set
(never initialised, or cleaned up) `EVP_CIPHER_CTX_iv` returns a null pointer; on an
initialised context it returns a pointer to the current register. -/
def toyEVP_null_iv : EVP ToyCtx :=
  { toyEVP with
    EVP_CIPHER_CTX_iv := fun c0 =>
      match c0.cipher with
      | none => none
      | some _ => some (fun c => c.iv) }

/-- A well-formed single-shot CBC encrypt case: 24-byte key, 8-byte IV, 8-byte plaintext. -/
def tc_cbc : ACVP_SYM_CIPHER_TC :=
  { cipher := .ACVP_TDES_CBC, test_type := .OTHER 0, direction := .ACVP_SYM_CIPH_DIR_ENCRYPT,
    key := List.replicate 24 7, key_len := 192, iv := [1, 2, 3, 4, 5, 6, 7, 8],
    pt := [10, 20, 30, 40, 50, 60, 70, 255], pt_len := 8,
    ct := List.replicate 8 0, ct_len := 0,
    iv_ret := List.replicate 8 0, iv_ret_after := List.replicate 8 0, mct_index := 0 }

/-- A case with an unsupported key length whose other fields are invalid too: counter mode,
a direction that is neither encrypt nor decrypt. -/
def tc_bad_key : ACVP_SYM_CIPHER_TC :=
  { tc_cbc with cipher := .ACVP_TDES_CTR, direction := .OTHER 7, key_len := 128 }

/-- A counter-mode case with the supported key length. -/
def tc_ctr : ACVP_SYM_CIPHER_TC := { tc_cbc with cipher := .ACVP_TDES_CTR }

/-- A Monte Carlo case at step 5 with a direction that is neither encrypt nor decrypt. -/
def tc_mct_bad_direction : ACVP_SYM_CIPHER_TC :=
  { tc_cbc with test_type := .ACVP_SYM_TEST_TYPE_MCT, direction := .OTHER 0, mct_index := 5 }

/-- A Monte Carlo CFB1 encrypt case at step `i` (lengths are in bits for CFB1). -/
def tc_mct (i : Nat) : ACVP_SYM_CIPHER_TC :=
  { tc_cbc with cipher := .ACVP_TDES_CFB1, test_type := .ACVP_SYM_TEST_TYPE_MCT, mct_index := i }

/-- A session of the small engine that an earlier Monte Carlo step has left. -/
def toy_running : ToyCtx :=
  { cipher := some .EVP_des_ede3_cfb1, key := List.replicate 24 7,
    iv := [8, 7, 6, 5, 4, 3, 2, 1], enc := 1, flags := 0 }

/-- A Monte Carlo CBC encrypt case at step `i`. -/
def tc_mct_cbc (i : Nat) : ACVP_SYM_CIPHER_TC :=
  { tc_cbc with test_type := .ACVP_SYM_TEST_TYPE_MCT, mct_index := i }

/-- The first two steps of a Monte Carlo CBC chain. -/
def chain_cbc_start : List ACVP_TEST_CASE := [⟨tc_mct_cbc 0⟩, ⟨tc_mct_cbc 1⟩]

/-- The first three steps of a Monte Carlo chain. -/
def chain_start : List ACVP_TEST_CASE := [⟨tc_mct 0⟩, ⟨tc_mct 1⟩, ⟨tc_mct 2⟩]

/-- The last two steps of a Monte Carlo chain. -/
def chain_end : List ACVP_TEST_CASE := [⟨tc_mct 9998⟩, ⟨tc_mct 9999⟩]

/-- The outcome of the last call of `chain_end` run on the session `toy_running`. -/
def chain_end_last : Outcome ToyCtx :=
  app_des_handler toyEVP
    (app_des_handler toyEVP (some toy_running) (some ⟨tc_mct 9998⟩)).glb_cipher_ctx
    (some ⟨tc_mct 9999⟩)

/-- The case `tc_cbc` as a single-shot encrypt call on the small engine leaves it. -/
def tc_cbc_encrypted : ACVP_SYM_CIPHER_TC :=
  { tc_cbc with ct := [11, 21, 31, 41, 51, 61, 71, 0], ct_len := 8 }

/-- The decrypt case built from an encrypt case `te` and the case `oe` its call left: same
variant, key, key length and IV, direction DECRYPT, the ciphertext and its length taken from
`oe`, and `pt0`, `pt_len0` as the initial contents of the plaintext fields. -/
def decrypt_case_of (te oe : ACVP_SYM_CIPHER_TC) (pt0 : List Byte) (pt_len0 : Nat) :
    ACVP_SYM_CIPHER_TC :=
  { te with
    direction := .ACVP_SYM_CIPH_DIR_DECRYPT, ct := oe.ct, ct_len := oe.ct_len,
    pt := pt0, pt_len := pt_len0 }

/-- The output fields of the test case a call leaves: `ct`, `ct_len`, `pt`, `pt_len`,
`iv_ret`, `iv_ret_after` (`none` for a null test case). -/
def outputs (o : Outcome Ctx) :
    Option (List Byte × Nat × List Byte × Nat × List Byte × List Byte) :=
  o.test_case.map (fun t => (t.symmetric.ct, t.symmetric.ct_len, t.symmetric.pt,
    t.symmetric.pt_len, t.symmetric.iv_ret, t.symmetric.iv_ret_after))

/-- A Monte Carlo ECB decrypt case at step 0. -/
def tc_mct_ecb : ACVP_SYM_CIPHER_TC :=
  { tc_cbc with
    cipher := .ACVP_TDES_ECB, test_type := .ACVP_SYM_TEST_TYPE_MCT,
    direction := .ACVP_SYM_CIPH_DIR_DECRYPT, ct := [9, 8, 7, 6, 5, 4, 3, 2], ct_len := 8,
    iv_ret := [42, 42, 42, 42, 42, 42, 42, 42] }

/-- A single-shot OFB encrypt case with another key, IV and plaintext than `tc_cbc`. -/
def tc_ofb : ACVP_SYM_CIPHER_TC :=
  { tc_cbc with
    cipher := .ACVP_TDES_OFB, key := List.replicate 24 9, iv := [9, 9, 9, 9, 9, 9, 9, 9],
    pt := [100, 101, 102, 103, 104, 105, 106, 107] }

/-- The test case `t` with the bytes `iv` in its `iv` field. -/
def with_iv (t : ACVP_TEST_CASE) (iv : List Byte) : ACVP_TEST_CASE :=
  { symmetric := { t.symmetric with iv := iv } }

/-- The test case `t` with the bytes `key` and `iv` in its `key` and `iv` fields. -/
def with_key_iv (t : ACVP_TEST_CASE) (key iv : List Byte) : ACVP_TEST_CASE :=
  { symmetric := { t.symmetric with key := key, iv := iv } }

/-- The test case `t` with `mct_index` set to `i`. -/
def with_mct_index (t : ACVP_TEST_CASE) (i : Nat) : ACVP_TEST_CASE :=
  { symmetric := { t.symmetric with mct_index := i } }

/-! ## Theorems -/

/-- The mode switch succeeds exactly on the six listed variants. -/
theorem select_cipher_isSome (tc : ACVP_SYM_CIPHER_TC) :
    (select_cipher tc).isSome = true ↔
      (tc.cipher = .ACVP_TDES_ECB ∨ tc.cipher = .ACVP_TDES_CBC ∨ tc.cipher = .ACVP_TDES_OFB ∨
        tc.cipher = .ACVP_TDES_CFB64 ∨ tc.cipher = .ACVP_TDES_CFB8 ∨
        tc.cipher = .ACVP_TDES_CFB1) := by
  unfold select_cipher
  cases tc.cipher <;> simp

/-- The context check succeeds exactly when a context is present or can be allocated. -/
theorem ensure_ctx_isSome (E : EVP Ctx) (glb : Option Ctx) :
    (ensure_ctx E glb).isSome = true ↔ (glb ≠ none ∨ E.EVP_CIPHER_CTX_new ≠ none) := by
  unfold ensure_ctx
  cases glb <;> cases E.EVP_CIPHER_CTX_new <;> simp

/-- The Monte Carlo direction chain succeeds exactly for encrypt and decrypt. -/
theorem mct_direction_isSome (E : EVP Ctx) (cipher : EVP_CIPHER) (iv : Option (List Byte))
    (f : Frame Ctx) :
    (mct_direction E cipher iv f).isSome = true ↔
      (f.tc.direction = .ACVP_SYM_CIPH_DIR_ENCRYPT ∨
        f.tc.direction = .ACVP_SYM_CIPH_DIR_DECRYPT) := by
  unfold mct_direction
  split
  · simp [*]
  · split <;> simp [*]

/-- The single-shot direction chain succeeds exactly for encrypt and decrypt. -/
theorem single_direction_isSome (E : EVP Ctx) (cipher : EVP_CIPHER) (iv : Option (List Byte))
    (f : Frame Ctx) :
    (single_direction E cipher iv f).isSome = true ↔
      (f.tc.direction = .ACVP_SYM_CIPH_DIR_ENCRYPT ∨
        f.tc.direction = .ACVP_SYM_CIPH_DIR_DECRYPT) := by
  unfold single_direction
  split
  · simp [*]
  · split <;> simp [*]

/-- C1: a non-null test case whose `key_len` is not 192 makes `app_des_handler` return 1
through the unsupported-key-length branch (its only call is the `printf` of line 43),
whatever the engine, the session state and the other fields of the case are; the test case
and the session are left as they were and no transform runs. -/
theorem C1_bad_key_length_fails (E : EVP Ctx) (glb : Option Ctx) (t : ACVP_TEST_CASE)
    (hkey : t.symmetric.key_len ≠ 192) :
    (app_des_handler E glb (some t)).ret = 1 ∧
      (app_des_handler E glb (some t)).trace = [Event.printf msg_key_length] ∧
      (app_des_handler E glb (some t)).test_case = some t ∧
      (app_des_handler E glb (some t)).glb_cipher_ctx = glb ∧
      (app_des_handler E glb (some t)).cipher_in = none := by
  simp [app_des_handler, hkey, fail_with]

/-- C1 at a case with key length 128, counter mode and an invalid direction. -/
theorem C1_bad_key_length_fails_witness :
    (app_des_handler toyEVP none (some ⟨tc_bad_key⟩)).ret = 1 ∧
      (app_des_handler toyEVP none (some ⟨tc_bad_key⟩)).trace = [Event.printf msg_key_length] ∧
      (app_des_handler toyEVP none (some ⟨tc_bad_key⟩)).test_case = some ⟨tc_bad_key⟩ ∧
      (app_des_handler toyEVP none (some ⟨tc_bad_key⟩)).glb_cipher_ctx = none ∧
      (app_des_handler toyEVP none (some ⟨tc_bad_key⟩)).cipher_in = none :=
  C1_bad_key_length_fails toyEVP none ⟨tc_bad_key⟩ (by decide)

/-- C2, as stated, fails: a counter-mode case with key length 128 does not reach the
unsupported-mode branch; its only call is the `printf` of the key-length branch. -/
theorem C2_ctr_not_always_mode_error :
    tc_bad_key.cipher = .ACVP_TDES_CTR ∧
      (app_des_handler toyEVP none (some ⟨tc_bad_key⟩)).trace = [Event.printf msg_key_length] ∧
      Event.printf msg_mode ∉ (app_des_handler toyEVP none (some ⟨tc_bad_key⟩)).trace := by
  decide

/-- C2 (amended): a counter-mode case always makes `app_des_handler` return 1 without
initialising the engine or running a transform, and the test case is left as it was; the
failure is the unsupported-mode branch (the `printf` of line 89) exactly when `key_len` is
192 and an engine context is present or can be allocated. -/
theorem C2_ctr_always_fails (E : EVP Ctx) (glb : Option Ctx) (t : ACVP_TEST_CASE)
    (hctr : t.symmetric.cipher = .ACVP_TDES_CTR) :
    (app_des_handler E glb (some t)).ret = 1 ∧
      (app_des_handler E glb (some t)).cipher_in = none ∧
      (∀ out inp inl, Event.EVP_Cipher out inp inl ∉ (app_des_handler E glb (some t)).trace) ∧
      (∀ c k iv enc, Event.EVP_CipherInit_ex c k iv enc ∉
        (app_des_handler E glb (some t)).trace) ∧
      (app_des_handler E glb (some t)).test_case = some t ∧
      (Event.printf msg_mode ∈ (app_des_handler E glb (some t)).trace ↔
        (t.symmetric.key_len = 192 ∧ (glb ≠ none ∨ E.EVP_CIPHER_CTX_new ≠ none))) := by
  have hsel : select_cipher t.symmetric = none := by simp [select_cipher, hctr]
  by_cases hkey : t.symmetric.key_len = 192
  · cases glb with
    | some c =>
      simp [app_des_handler, hkey, ensure_ctx, hsel, fail_with]
    | none =>
      cases hnew : E.EVP_CIPHER_CTX_new with
      | none =>
        simp [app_des_handler, hkey, ensure_ctx, hnew, fail_with, msg_mode, msg_alloc]
      | some c =>
        simp [app_des_handler, hkey, ensure_ctx, hnew, hsel, fail_with]
  · simp [app_des_handler, hkey, fail_with, msg_mode, msg_key_length]

/-- C2 (amended) at a counter-mode case with key length 192. -/
theorem C2_ctr_always_fails_witness :
    (app_des_handler toyEVP none (some ⟨tc_ctr⟩)).ret = 1 ∧
      (app_des_handler toyEVP none (some ⟨tc_ctr⟩)).cipher_in = none ∧
      (∀ out inp inl,
        Event.EVP_Cipher out inp inl ∉ (app_des_handler toyEVP none (some ⟨tc_ctr⟩)).trace) ∧
      (∀ c k iv enc, Event.EVP_CipherInit_ex c k iv enc ∉
        (app_des_handler toyEVP none (some ⟨tc_ctr⟩)).trace) ∧
      (app_des_handler toyEVP none (some ⟨tc_ctr⟩)).test_case = some ⟨tc_ctr⟩ ∧
      (Event.printf msg_mode ∈ (app_des_handler toyEVP none (some ⟨tc_ctr⟩)).trace ↔
        (tc_ctr.key_len = 192 ∧ ((none : Option ToyCtx) ≠ none ∨
          toyEVP.EVP_CIPHER_CTX_new ≠ none))) :=
  C2_ctr_always_fails toyEVP none ⟨tc_ctr⟩ (by decide)

/-- The handler returns 0 exactly when every check passes; otherwise it returns 1 and the
test case is the one passed in. -/
theorem app_des_handler_ret (E : EVP Ctx) (glb : Option Ctx) (t : ACVP_TEST_CASE) :
    ((app_des_handler E glb (some t)).ret = 0 ↔
      (t.symmetric.key_len = 192 ∧ (ensure_ctx E glb).isSome = true ∧
        (select_cipher t.symmetric).isSome = true ∧
        (t.symmetric.direction = .ACVP_SYM_CIPH_DIR_ENCRYPT ∨
          t.symmetric.direction = .ACVP_SYM_CIPH_DIR_DECRYPT))) ∧
    ((app_des_handler E glb (some t)).ret ≠ 0 →
      (app_des_handler E glb (some t)).ret = 1 ∧
        (app_des_handler E glb (some t)).test_case = some t ∧
        (app_des_handler E glb (some t)).cipher_in = none) := by
  by_cases hkey : t.symmetric.key_len = 192
  swap
  · simp [app_des_handler, hkey, fail_with]
  cases hens : ensure_ctx E glb with
  | none => simp [app_des_handler, hkey, hens, fail_with]
  | some p =>
    obtain ⟨c, tr⟩ := p
    cases hsel : select_cipher t.symmetric with
    | none => simp [app_des_handler, hkey, hens, hsel, fail_with]
    | some q =>
      obtain ⟨cipher, iv⟩ := q
      by_cases htype : t.symmetric.test_type = .ACVP_SYM_TEST_TYPE_MCT
      · have hd := mct_direction_isSome E cipher iv
          { cipher_ctx := c, tc := t.symmetric, trace := tr, cipher_in := none,
            cipher_out := none }
        cases hdir : mct_direction E cipher iv
          { cipher_ctx := c, tc := t.symmetric, trace := tr, cipher_in := none,
            cipher_out := none } with
        | none =>
          rw [hdir] at hd
          simp at hd
          simp [app_des_handler, hkey, hens, hsel, htype, hdir, fail_with, hd]
        | some f1 =>
          rw [hdir] at hd
          simp at hd
          simp [app_des_handler, hkey, hens, hsel, htype, hdir, return_ok, hd]
      · have hd := single_direction_isSome E cipher iv
          { cipher_ctx := c, tc := t.symmetric, trace := tr, cipher_in := none,
            cipher_out := none }
        cases hdir : single_direction E cipher iv
          { cipher_ctx := c, tc := t.symmetric, trace := tr, cipher_in := none,
            cipher_out := none } with
        | none =>
          rw [hdir] at hd
          simp at hd
          simp [app_des_handler, hkey, hens, hsel, htype, hdir, fail_with, hd]
        | some f1 =>
          rw [hdir] at hd
          simp at hd
          simp [app_des_handler, hkey, hens, hsel, htype, hdir, return_ok, hd]

/-- C3: when an engine context is present or can be allocated, `app_des_handler` returns 0
if and only if the test case is non-null, `key_len` is 192, the variant is one of ECB, CBC,
OFB, CFB64, CFB8, CFB1 and the direction is ENCRYPT or DECRYPT; every other call returns 1.
In particular a direction other than ENCRYPT and DECRYPT returns 1 for every test type and
every `mct_index`. -/
theorem C3_success_iff (E : EVP Ctx) (glb : Option Ctx) (test_case : Option ACVP_TEST_CASE)
    (halloc : glb ≠ none ∨ E.EVP_CIPHER_CTX_new ≠ none) :
    ((app_des_handler E glb test_case).ret = 0 ↔
      ∃ t, test_case = some t ∧ t.symmetric.key_len = 192 ∧
        (t.symmetric.cipher = .ACVP_TDES_ECB ∨ t.symmetric.cipher = .ACVP_TDES_CBC ∨
          t.symmetric.cipher = .ACVP_TDES_OFB ∨ t.symmetric.cipher = .ACVP_TDES_CFB64 ∨
          t.symmetric.cipher = .ACVP_TDES_CFB8 ∨ t.symmetric.cipher = .ACVP_TDES_CFB1) ∧
        (t.symmetric.direction = .ACVP_SYM_CIPH_DIR_ENCRYPT ∨
          t.symmetric.direction = .ACVP_SYM_CIPH_DIR_DECRYPT)) ∧
    ((app_des_handler E glb test_case).ret = 0 ∨ (app_des_handler E glb test_case).ret = 1) ∧
    (∀ t, test_case = some t →
      t.symmetric.direction ≠ .ACVP_SYM_CIPH_DIR_ENCRYPT →
      t.symmetric.direction ≠ .ACVP_SYM_CIPH_DIR_DECRYPT →
      (app_des_handler E glb test_case).ret = 1) := by
  cases test_case with
  | none => simp [app_des_handler, fail_with]
  | some t =>
    have h := app_des_handler_ret E glb t
    have hens := (ensure_ctx_isSome E glb).mpr halloc
    have hsel := select_cipher_isSome t.symmetric
    obtain ⟨h0, h1⟩ := h
    refine ⟨?_, ?_, ?_⟩
    · rw [h0]
      simp [hens, hsel]
    · by_cases hr : (app_des_handler E glb (some t)).ret = 0
      · exact Or.inl hr
      · exact Or.inr (h1 hr).1
    · intro t2 ht2 hne hnd
      cases ht2
      have hr : (app_des_handler E glb (some t)).ret ≠ 0 := by
        intro hz
        rcases (h0.mp hz).2.2.2 with hd | hd
        · exact hne hd
        · exact hnd hd
      exact (h1 hr).1

/-- C3 at a well-formed single-shot CBC encrypt case on a fresh session: the call returns 0. -/
theorem C3_success_iff_witness :
    (toyEVP.EVP_CIPHER_CTX_new ≠ none) ∧ (app_des_handler toyEVP none (some ⟨tc_cbc⟩)).ret = 0 :=
  ⟨by decide,
    ((C3_success_iff toyEVP none (some ⟨tc_cbc⟩) (Or.inr (by decide))).1).mpr
      ⟨⟨tc_cbc⟩, rfl, by decide, by decide, by decide⟩⟩

/-- C4: whenever `app_des_handler` does not return 0 (null case, bad key length, failed
allocation, unsupported mode, unsupported direction; either test type, any `mct_index`) it
returns 1 and the test case is exactly as it was before the call, so `ct`, `ct_len`, `pt`,
`pt_len`, `iv_ret` and `iv_ret_after` hold their old values; no transform has run. -/
theorem C4_failure_leaves_outputs (E : EVP Ctx) (glb : Option Ctx)
    (test_case : Option ACVP_TEST_CASE)
    (hfail : (app_des_handler E glb test_case).ret ≠ 0) :
    (app_des_handler E glb test_case).ret = 1 ∧
      (app_des_handler E glb test_case).test_case = test_case ∧
      (app_des_handler E glb test_case).cipher_in = none ∧
      (∀ t t2, test_case = some t → (app_des_handler E glb test_case).test_case = some t2 →
        t2.symmetric.ct = t.symmetric.ct ∧ t2.symmetric.ct_len = t.symmetric.ct_len ∧
        t2.symmetric.pt = t.symmetric.pt ∧ t2.symmetric.pt_len = t.symmetric.pt_len ∧
        t2.symmetric.iv_ret = t.symmetric.iv_ret ∧
        t2.symmetric.iv_ret_after = t.symmetric.iv_ret_after) := by
  cases test_case with
  | none => simp [app_des_handler, fail_with]
  | some t =>
    obtain ⟨h1, h2, h3⟩ := (app_des_handler_ret E glb t).2 hfail
    refine ⟨h1, h2, h3, ?_⟩
    intro t1 t2 ht1 ht2
    rw [h2] at ht2
    cases ht1
    cases ht2
    simp

/-- C4 at a Monte Carlo case (step 5) with an unsupported direction. -/
theorem C4_failure_leaves_outputs_witness :
    (app_des_handler toyEVP none (some ⟨tc_mct_bad_direction⟩)).ret = 1 ∧
      (app_des_handler toyEVP none (some ⟨tc_mct_bad_direction⟩)).test_case =
        some ⟨tc_mct_bad_direction⟩ :=
  ⟨(C4_failure_leaves_outputs toyEVP none (some ⟨tc_mct_bad_direction⟩) (by decide)).1,
    (C4_failure_leaves_outputs toyEVP none (some ⟨tc_mct_bad_direction⟩) (by decide)).2.1⟩

/-- A successful Monte Carlo call: the context check and the mode switch passed, the
direction chain gave a frame, and the outcome is that frame, cleaned up at step 9999. -/
theorem app_des_handler_mct_ok (E : EVP Ctx) (glb : Option Ctx) (t : ACVP_TEST_CASE)
    (hmct : t.symmetric.test_type = .ACVP_SYM_TEST_TYPE_MCT)
    (hok : (app_des_handler E glb (some t)).ret = 0) :
    ∃ c tr cipher iv f1, ensure_ctx E glb = some (c, tr) ∧
      select_cipher t.symmetric = some (cipher, iv) ∧
      mct_direction E cipher iv
        { cipher_ctx := c, tc := t.symmetric, trace := tr, cipher_in := none,
          cipher_out := none } = some f1 ∧
      app_des_handler E glb (some t) =
        return_ok (if t.symmetric.mct_index = 9999 then call_cleanup E f1 else f1) := by
  by_cases hkey : t.symmetric.key_len = 192
  swap
  · simp [app_des_handler, hkey, fail_with] at hok
  cases hens : ensure_ctx E glb with
  | none => simp [app_des_handler, hkey, hens, fail_with] at hok
  | some p =>
    obtain ⟨c, tr⟩ := p
    cases hsel : select_cipher t.symmetric with
    | none => simp [app_des_handler, hkey, hens, hsel, fail_with] at hok
    | some q =>
      obtain ⟨cipher, iv⟩ := q
      cases hdir : mct_direction E cipher iv
          { cipher_ctx := c, tc := t.symmetric, trace := tr, cipher_in := none,
            cipher_out := none } with
      | none => simp [app_des_handler, hkey, hens, hsel, hmct, hdir, fail_with] at hok
      | some f1 =>
        refine ⟨c, tr, cipher, iv, f1, rfl, rfl, hdir, ?_⟩
        simp [app_des_handler, hkey, hens, hsel, hmct, hdir]

/-- A successful single-shot call: the context check and the mode switch passed, the
direction chain gave a frame, and the outcome is that frame after the cleanup. -/
theorem app_des_handler_single_ok (E : EVP Ctx) (glb : Option Ctx) (t : ACVP_TEST_CASE)
    (hsingle : t.symmetric.test_type ≠ .ACVP_SYM_TEST_TYPE_MCT)
    (hok : (app_des_handler E glb (some t)).ret = 0) :
    ∃ c tr cipher iv f1, ensure_ctx E glb = some (c, tr) ∧
      select_cipher t.symmetric = some (cipher, iv) ∧
      single_direction E cipher iv
        { cipher_ctx := c, tc := t.symmetric, trace := tr, cipher_in := none,
          cipher_out := none } = some f1 ∧
      app_des_handler E glb (some t) = return_ok (call_cleanup E f1) := by
  by_cases hkey : t.symmetric.key_len = 192
  swap
  · simp [app_des_handler, hkey, fail_with] at hok
  cases hens : ensure_ctx E glb with
  | none => simp [app_des_handler, hkey, hens, fail_with] at hok
  | some p =>
    obtain ⟨c, tr⟩ := p
    cases hsel : select_cipher t.symmetric with
    | none => simp [app_des_handler, hkey, hens, hsel, fail_with] at hok
    | some q =>
      obtain ⟨cipher, iv⟩ := q
      cases hdir : single_direction E cipher iv
          { cipher_ctx := c, tc := t.symmetric, trace := tr, cipher_in := none,
            cipher_out := none } with
      | none => simp [app_des_handler, hkey, hens, hsel, hsingle, hdir, fail_with] at hok
      | some f1 =>
        refine ⟨c, tr, cipher, iv, f1, rfl, rfl, hdir, ?_⟩
        simp [app_des_handler, hkey, hens, hsel, hsingle, hdir]

/-- The first 8 bytes of a buffer after `memcpy_s(buf, SYM_IV_BYTE_MAX, src, 8)`: the
8 bytes read from `src`, or 8 zero bytes when `src` is null. -/
theorem memcpy_s_take (dest : List Byte) (src : Option (List Byte)) :
    (memcpy_s dest SYM_IV_BYTE_MAX src 8).take 8 =
      (src.map (fun b => read_bytes b 8)).getD (List.replicate 8 0) := by
  cases src with
  | none =>
    simp only [memcpy_s, SYM_IV_BYTE_MAX, RSIZE_MAX_MEM, zero_fill]
    rw [if_neg (by decide), if_neg (by decide)]
    rw [List.take_append_of_le_length (by simp)]
    simp
  | some b =>
    have hlen : (read_bytes b 8).length = 8 := by simp [read_bytes]
    simp only [memcpy_s, SYM_IV_BYTE_MAX, RSIZE_MAX_MEM]
    rw [if_neg (by decide), if_neg (by decide)]
    simp only [Option.map_some', Option.getD_some]
    rw [List.take_append_of_le_length (by omega)]
    exact List.take_of_length_le (by omega)

/-- What the Monte Carlo direction chain leaves in its frame: `EVP_Cipher` ran once, from a
context `cin` to the frame's final context; `iv_ret_after` was written by `memcpy_s` from
what is found, in the final context, through the pointer taken on the entry context; the
other fields of the case are untouched apart from the output of the direction; and when
`mct_index` is not 0, `iv_ret` was written by `memcpy_s` from what is found through that
pointer in the entry context, which reached `EVP_Cipher` unchanged or, for CFB1, after the
bit-length flag was set on it. -/
theorem mct_direction_some (E : EVP Ctx) (cipher : EVP_CIPHER) (iv : Option (List Byte))
    (f f1 : Frame Ctx) (h : mct_direction E cipher iv f = some f1) :
    f1.cipher_out = some f1.cipher_ctx ∧
    f1.tc.iv_ret_after = memcpy_s f.tc.iv_ret_after SYM_IV_BYTE_MAX
      (load_iv (E.EVP_CIPHER_CTX_iv f.cipher_ctx) f1.cipher_ctx) 8 ∧
    ∃ cin, f1.cipher_in = some cin ∧
      (f.tc.direction = .ACVP_SYM_CIPH_DIR_ENCRYPT →
        f1.cipher_ctx = (E.EVP_Cipher cin f.tc.ct f.tc.pt f.tc.pt_len).1 ∧
        f1.tc.ct = (E.EVP_Cipher cin f.tc.ct f.tc.pt f.tc.pt_len).2 ∧
        f1.tc.ct_len = f.tc.pt_len ∧ f1.tc.pt = f.tc.pt ∧ f1.tc.pt_len = f.tc.pt_len) ∧
      (f.tc.direction = .ACVP_SYM_CIPH_DIR_DECRYPT →
        f1.cipher_ctx = (E.EVP_Cipher cin f.tc.pt f.tc.ct f.tc.ct_len).1 ∧
        f1.tc.pt = (E.EVP_Cipher cin f.tc.pt f.tc.ct f.tc.ct_len).2 ∧
        f1.tc.pt_len = f.tc.ct_len ∧ f1.tc.ct = f.tc.ct ∧ f1.tc.ct_len = f.tc.ct_len) ∧
      (f.tc.mct_index = 0 → f1.tc.iv_ret = f.tc.iv_ret) ∧
      (f.tc.mct_index ≠ 0 →
        f1.tc.iv_ret = memcpy_s f.tc.iv_ret SYM_IV_BYTE_MAX
          (load_iv (E.EVP_CIPHER_CTX_iv f.cipher_ctx) f.cipher_ctx) 8 ∧
        (cin = f.cipher_ctx ∨
          (f.tc.cipher = .ACVP_TDES_CFB1 ∧
            cin = E.EVP_CIPHER_CTX_set_flags f.cipher_ctx EVP_CIPH_FLAG_LENGTH_BITS))) := by
  unfold mct_direction at h
  by_cases henc : f.tc.direction = .ACVP_SYM_CIPH_DIR_ENCRYPT
  · by_cases h0 : f.tc.mct_index = 0 <;>
      by_cases hcfb : f.tc.cipher = .ACVP_TDES_CFB1 <;>
      simp [henc, h0, call_set_flags_if_cfb1, call_set_padding, call_init, copy_iv_ret, hcfb,
          copy_iv_ret_after, transform_encrypt] at h <;>
      subst h <;>
      simp [h0, henc, hcfb]
  · by_cases hdec : f.tc.direction = .ACVP_SYM_CIPH_DIR_DECRYPT
    swap
    · simp [henc, hdec] at h
    by_cases h0 : f.tc.mct_index = 0 <;>
      by_cases hcfb : f.tc.cipher = .ACVP_TDES_CFB1 <;>
      simp [hdec, h0, call_set_flags_if_cfb1, call_set_padding, call_init, copy_iv_ret, hcfb,
          copy_iv_ret_after, transform_decrypt] at h <;>
      subst h <;>
      simp [h0, hdec, hcfb]

/-- The outcome of a successful Monte Carlo call, field by field, from the frame `f1` of the
direction chain: only `glb_cipher_ctx` and the trace depend on the cleanup of step 9999. -/
theorem return_ok_mct_fields (E : EVP Ctx) (f1 : Frame Ctx) (i : Nat) :
    (return_ok (if i = 9999 then call_cleanup E f1 else f1)).ret = 0 ∧
    (return_ok (if i = 9999 then call_cleanup E f1 else f1)).test_case =
      some { symmetric := f1.tc } ∧
    (return_ok (if i = 9999 then call_cleanup E f1 else f1)).cipher_in = f1.cipher_in ∧
    (return_ok (if i = 9999 then call_cleanup E f1 else f1)).cipher_out = f1.cipher_out ∧
    (i ≠ 9999 → (return_ok (if i = 9999 then call_cleanup E f1 else f1)).glb_cipher_ctx =
      some f1.cipher_ctx) ∧
    (i ≠ 9999 → (return_ok (if i = 9999 then call_cleanup E f1 else f1)).trace = f1.trace) ∧
    (i = 9999 → (return_ok (if i = 9999 then call_cleanup E f1 else f1)).glb_cipher_ctx =
      some (E.EVP_CIPHER_CTX_cleanup f1.cipher_ctx)) ∧
    (i = 9999 → (return_ok (if i = 9999 then call_cleanup E f1 else f1)).trace =
      f1.trace ++ [Event.EVP_CIPHER_CTX_cleanup]) := by
  by_cases h : i = 9999 <;> simp [h, return_ok, call_cleanup]

/-- When the accessor of the engine returns, for every context, one and the same pointer
that always shows the current register `reg` (the address of the register inside the
context), a successful Monte Carlo call leaves in the first 8 bytes of `iv_ret_after` the
register of the context `cout` that `EVP_Cipher` left, and, when `mct_index` is not 0, in
the first 8 bytes of `iv_ret` the register of the context `cin` that `EVP_Cipher` received.
For CFB1 the second part takes that setting the bit-length flag leaves the register
alone. -/
theorem mct_iv_snapshots_live_pointer (E : EVP Ctx) (glb : Option Ctx) (t : ACVP_TEST_CASE)
    (reg : Ctx → List Byte)
    (hmct : t.symmetric.test_type = .ACVP_SYM_TEST_TYPE_MCT)
    (hok : (app_des_handler E glb (some t)).ret = 0)
    (hlive : ∀ c, E.EVP_CIPHER_CTX_iv c = some reg)
    (hflags : t.symmetric.cipher = .ACVP_TDES_CFB1 → ∀ c,
      reg (E.EVP_CIPHER_CTX_set_flags c EVP_CIPH_FLAG_LENGTH_BITS) = reg c) :
    ∃ t2 cin cout,
      (app_des_handler E glb (some t)).test_case = some t2 ∧
      (app_des_handler E glb (some t)).cipher_in = some cin ∧
      (app_des_handler E glb (some t)).cipher_out = some cout ∧
      (t.symmetric.direction = .ACVP_SYM_CIPH_DIR_ENCRYPT →
        cout = (E.EVP_Cipher cin t.symmetric.ct t.symmetric.pt t.symmetric.pt_len).1) ∧
      (t.symmetric.direction = .ACVP_SYM_CIPH_DIR_DECRYPT →
        cout = (E.EVP_Cipher cin t.symmetric.pt t.symmetric.ct t.symmetric.ct_len).1) ∧
      some (t2.symmetric.iv_ret_after.take 8) = iv_register E cout ∧
      (t.symmetric.mct_index ≠ 0 →
        some (t2.symmetric.iv_ret.take 8) = iv_register E cin) := by
  obtain ⟨c, tr, cipher, iv, f1, -, -, hdir, heq⟩ := app_des_handler_mct_ok E glb t hmct hok
  obtain ⟨hout, hafter, cin, hin, henc, hdec, -, hidx⟩ :=
    mct_direction_some E cipher iv _ f1 hdir
  obtain ⟨-, htc, hci, hco, -⟩ := return_ok_mct_fields E f1 t.symmetric.mct_index
  rw [heq]
  refine ⟨{ symmetric := f1.tc }, cin, f1.cipher_ctx, htc, hci.trans hin, hco.trans hout,
    fun h => (henc h).1, fun h => (hdec h).1, ?_, ?_⟩
  · simp only [hafter, memcpy_s_take, iv_register, iv_through, load_iv, hlive,
      Option.map_some', Option.getD_some]
  · intro h0
    obtain ⟨hret, hcin⟩ := hidx h0
    simp only [] at hret hcin
    simp only [hret, memcpy_s_take, iv_register, iv_through, load_iv, hlive,
      Option.map_some', Option.getD_some]
    rcases hcin with hcin | ⟨hcfb, hcin⟩
    · rw [hcin]
    · rw [hcin, hflags hcfb]

/-- What a successful Monte Carlo call writes to the two IV buffers, for any engine: with `c`
the context on entry (after the context check) and `cout` the context `EVP_Cipher` left,
the first 8 bytes of `iv_ret_after` are what is found in `cout` through the pointer taken
on `c`, and 8 zero bytes when that pointer is null; when `mct_index` is not 0, the first 8
bytes of `iv_ret` are the register of `c`, and 8 zero bytes when the pointer is null. -/
theorem mct_iv_copies (E : EVP Ctx) (glb : Option Ctx) (t : ACVP_TEST_CASE)
    (hmct : t.symmetric.test_type = .ACVP_SYM_TEST_TYPE_MCT)
    (hok : (app_des_handler E glb (some t)).ret = 0) :
    ∃ c tr t2 cout,
      ensure_ctx E glb = some (c, tr) ∧
      (app_des_handler E glb (some t)).test_case = some t2 ∧
      (app_des_handler E glb (some t)).cipher_out = some cout ∧
      t2.symmetric.iv_ret_after.take 8 = (iv_through E c cout).getD (List.replicate 8 0) ∧
      (t.symmetric.mct_index ≠ 0 →
        t2.symmetric.iv_ret.take 8 = (iv_register E c).getD (List.replicate 8 0)) := by
  obtain ⟨c, tr, cipher, iv, f1, hens, -, hdir, heq⟩ := app_des_handler_mct_ok E glb t hmct hok
  obtain ⟨hout, hafter, cin, -, -, -, -, hidx⟩ := mct_direction_some E cipher iv _ f1 hdir
  obtain ⟨-, htc, -, hco, -⟩ := return_ok_mct_fields E f1 t.symmetric.mct_index
  simp only [] at hafter hidx
  rw [heq]
  refine ⟨c, tr, { symmetric := f1.tc }, f1.cipher_ctx, hens, htc, hco.trans hout, ?_, ?_⟩
  · simp only [hafter, memcpy_s_take, iv_through]
  · intro h0
    simp only [(hidx h0).1, memcpy_s_take, iv_register, iv_through]

/-- C5: the source fails the claim at step 0 on an engine whose accessor returns a null
pointer for a context with no cipher set (OpenSSL 3). On a fresh session, the successful
Monte Carlo CBC encrypt call at `mct_index` 0 takes `ctx_iv` before the initialisation, so
`ctx_iv` is null and the copy of line 124 zeroes `iv_ret_after`: its first 8 bytes are 0,
while the IV register of the context the transform left is 11, 21, 31, 41, 51, 61, 71, 0. -/
theorem C5_step0_iv_ret_after_is_not_the_register :
    (app_des_handler toyEVP_null_iv none (some ⟨tc_mct_cbc 0⟩)).ret = 0 ∧
    (app_des_handler toyEVP_null_iv none (some ⟨tc_mct_cbc 0⟩)).cipher_out.bind
      (iv_register toyEVP_null_iv) = some [11, 21, 31, 41, 51, 61, 71, 0] ∧
    (app_des_handler toyEVP_null_iv none (some ⟨tc_mct_cbc 0⟩)).test_case.map
      (fun t => t.symmetric.iv_ret_after.take 8) = some [0, 0, 0, 0, 0, 0, 0, 0] ∧
    Event.memcpy_s .iv_ret_after none ∈
      (app_des_handler toyEVP_null_iv none (some ⟨tc_mct_cbc 0⟩)).trace := by
  decide

/-- The calls at two adjacent positions of a chain: the second starts from the
`glb_cipher_ctx` the first one left. -/
theorem run_chain_adjacent (E : EVP Ctx) :
    ∀ (tcs : List ACVP_TEST_CASE) (glb : Option Ctx) (i : Nat) (ta : ACVP_TEST_CASE),
      tcs[i]? = some ta →
      ∃ g, (run_chain E glb tcs)[i]? = some (app_des_handler E g (some ta)) ∧
        (run_chain E glb tcs)[i + 1]? =
          (tcs[i + 1]?).map
            (fun tb => app_des_handler E (app_des_handler E g (some ta)).glb_cipher_ctx (some tb))
  | [], _, _, _, h => by simp at h
  | t :: ts, glb, 0, ta, h => by
    simp at h
    subst h
    refine ⟨glb, by simp [run_chain], ?_⟩
    cases ts <;> simp [run_chain]
  | t :: ts, glb, i + 1, ta, h => by
    simp at h
    obtain ⟨g, hg1, hg2⟩ :=
      run_chain_adjacent E ts (app_des_handler E glb (some t)).glb_cipher_ctx i ta h
    exact ⟨g, by simpa [run_chain] using hg1, by simpa [run_chain] using hg2⟩

/-- Two Monte Carlo calls in a row, the first not at step 9999 and the second not at step 0,
both successful, on an engine whose accessor always returns one pointer that shows the
current register `reg`: the first 8 bytes of the second call's `iv_ret` are the first 8
bytes of the first call's `iv_ret_after`, the register of the context the first transform
left. -/
theorem mct_adjacent_calls_live_pointer (E : EVP Ctx) (g : Option Ctx)
    (ta tb : ACVP_TEST_CASE) (reg : Ctx → List Byte)
    (hlive : ∀ c, E.EVP_CIPHER_CTX_iv c = some reg)
    (hma : ta.symmetric.test_type = .ACVP_SYM_TEST_TYPE_MCT)
    (hmb : tb.symmetric.test_type = .ACVP_SYM_TEST_TYPE_MCT)
    (hia : ta.symmetric.mct_index ≠ 9999) (hib : tb.symmetric.mct_index ≠ 0)
    (hoka : (app_des_handler E g (some ta)).ret = 0)
    (hokb : (app_des_handler E (app_des_handler E g (some ta)).glb_cipher_ctx (some tb)).ret = 0) :
    ∃ t_prev t_n c,
      (app_des_handler E g (some ta)).test_case = some t_prev ∧
      (app_des_handler E (app_des_handler E g (some ta)).glb_cipher_ctx (some tb)).test_case =
        some t_n ∧
      t_n.symmetric.iv_ret.take 8 = t_prev.symmetric.iv_ret_after.take 8 ∧
      (app_des_handler E g (some ta)).cipher_out = some c ∧
      some (t_n.symmetric.iv_ret.take 8) = iv_register E c := by
  obtain ⟨ca, tra, ciphera, iva, fa, -, -, hdira, heqa⟩ :=
    app_des_handler_mct_ok E g ta hma hoka
  obtain ⟨houta, haftera, -⟩ := mct_direction_some E ciphera iva _ fa hdira
  obtain ⟨-, htca, -, hcoa, hglba, -⟩ := return_ok_mct_fields E fa ta.symmetric.mct_index
  have hglb : (app_des_handler E g (some ta)).glb_cipher_ctx = some fa.cipher_ctx := by
    rw [heqa]
    exact hglba hia
  rw [hglb] at hokb ⊢
  obtain ⟨cb, trb, cipherb, ivb, fb, hensb, -, hdirb, heqb⟩ :=
    app_des_handler_mct_ok E (some fa.cipher_ctx) tb hmb hokb
  have hcb : cb = fa.cipher_ctx := by
    simp [ensure_ctx] at hensb
    exact hensb.1.symm
  obtain ⟨-, -, cin, -, -, -, -, hidxb⟩ := mct_direction_some E cipherb ivb _ fb hdirb
  obtain ⟨-, htcb, -⟩ := return_ok_mct_fields E fb tb.symmetric.mct_index
  have hret := (hidxb hib).1
  simp only [] at hret haftera
  rw [hcb] at hret
  have hn : fb.tc.iv_ret.take 8 = read_bytes (reg fa.cipher_ctx) 8 := by
    simp only [hret, memcpy_s_take, load_iv, hlive, Option.map_some', Option.getD_some]
  have hp : fa.tc.iv_ret_after.take 8 = read_bytes (reg fa.cipher_ctx) 8 := by
    simp only [haftera, memcpy_s_take, load_iv, hlive, Option.map_some', Option.getD_some]
  refine ⟨{ symmetric := fa.tc }, { symmetric := fb.tc }, fa.cipher_ctx, ?_, ?_, ?_, ?_, ?_⟩
  · rw [heqa]
    exact htca
  · rw [heqb]
    exact htcb
  · simp only []
    rw [hn, hp]
  · rw [heqa]
    exact hcoa.trans houta
  · simp only [hn, iv_register, iv_through, load_iv, hlive, Option.map_some']

/-- On an engine whose accessor always returns one pointer that shows the current register:
in a chain of successful Monte Carlo calls made one after the other on one session, the
case at position `i` carrying `mct_index = i`, for every step `n` with `1 <= n <= 9998` the
first 8 bytes of the `iv_ret` written at step `n` are the first 8 bytes of the
`iv_ret_after` written at step `n - 1`, and they are the register of the context that the
transform of step `n - 1` left. -/
theorem mct_chain_iv_live_pointer (E : EVP Ctx) (glb : Option Ctx)
    (tcs : List ACVP_TEST_CASE) (n : Nat) (reg : Ctx → List Byte)
    (hlive : ∀ c, E.EVP_CIPHER_CTX_iv c = some reg)
    (hmct : ∀ t ∈ tcs, t.symmetric.test_type = .ACVP_SYM_TEST_TYPE_MCT)
    (hidx : tcs.map (fun t => t.symmetric.mct_index) = List.range tcs.length)
    (hok : ∀ o ∈ run_chain E glb tcs, o.ret = 0)
    (h1 : 1 ≤ n) (h2 : n ≤ 9998) (hn : n < tcs.length) :
    ∃ o_prev o_n t_prev t_n c,
      (run_chain E glb tcs)[n - 1]? = some o_prev ∧ (run_chain E glb tcs)[n]? = some o_n ∧
      o_prev.test_case = some t_prev ∧ o_n.test_case = some t_n ∧
      t_n.symmetric.iv_ret.take 8 = t_prev.symmetric.iv_ret_after.take 8 ∧
      o_prev.cipher_out = some c ∧ some (t_n.symmetric.iv_ret.take 8) = iv_register E c := by
  obtain ⟨m, rfl⟩ : ∃ m, n = m + 1 := ⟨n - 1, by omega⟩
  have hidx_at : ∀ i (ti : ACVP_TEST_CASE), tcs[i]? = some ti → ti.symmetric.mct_index = i := by
    intro i ti hi
    have hlt : i < tcs.length := (List.getElem?_eq_some.mp hi).1
    have h := congrArg (fun l => l[i]?) hidx
    simp only [List.getElem?_map, hi, Option.map_some', List.getElem?_range hlt] at h
    exact Option.some.inj h
  have ha : tcs[m]? = some (tcs[m]) := List.getElem?_eq_getElem (by omega)
  have hb : tcs[m + 1]? = some (tcs[m + 1]) := List.getElem?_eq_getElem hn
  obtain ⟨g, hg1, hg2⟩ := run_chain_adjacent E tcs glb m _ ha
  rw [hb, Option.map_some'] at hg2
  have hia := hidx_at m _ ha
  have hib := hidx_at (m + 1) _ hb
  obtain ⟨t_prev, t_n, c, hp, hq, hr, hs, ht⟩ :=
    mct_adjacent_calls_live_pointer E g (tcs[m]) (tcs[m + 1]) reg hlive
      (hmct _ (List.getElem?_mem ha)) (hmct _ (List.getElem?_mem hb))
      (by omega) (by omega) (hok _ (List.getElem?_mem hg1)) (hok _ (List.getElem?_mem hg2))
  exact ⟨_, _, t_prev, t_n, c, by simpa using hg1, hg2, hp, hq, hr, hs, ht⟩

/-- C6: the source fails the claim at `n = 1` on an engine whose accessor returns a null
pointer for a context with no cipher set (OpenSSL 3). In the chain of the Monte Carlo CBC
encrypt steps 0 and 1 run on a fresh session, both calls succeed; the first 8 bytes of the
`iv_ret` written at step 1 are 11, 21, 31, 41, 51, 61, 71, 0, the IV register that the
transform of step 0 left; but the first 8 bytes of the `iv_ret_after` written at step 0
are 0, because step 0 copies through the pointer it took before the initialisation. -/
theorem C6_step1_iv_ret_differs_from_step0_iv_ret_after :
    (run_chain toyEVP_null_iv none chain_cbc_start).map (fun o => o.ret) = [0, 0] ∧
    ((run_chain toyEVP_null_iv none chain_cbc_start)[1]?.bind (fun o => o.test_case)).map
      (fun t => t.symmetric.iv_ret.take 8) = some [11, 21, 31, 41, 51, 61, 71, 0] ∧
    ((run_chain toyEVP_null_iv none chain_cbc_start)[0]?.bind (fun o => o.cipher_out)).bind
      (iv_register toyEVP_null_iv) = some [11, 21, 31, 41, 51, 61, 71, 0] ∧
    ((run_chain toyEVP_null_iv none chain_cbc_start)[0]?.bind (fun o => o.test_case)).map
      (fun t => t.symmetric.iv_ret_after.take 8) = some [0, 0, 0, 0, 0, 0, 0, 0] := by
  decide

/-- The context check makes no call, or the one call `EVP_CIPHER_CTX_new`. -/
theorem ensure_ctx_trace (E : EVP Ctx) (glb : Option Ctx) (c : Ctx) (tr : List Event)
    (h : ensure_ctx E glb = some (c, tr)) :
    (glb = some c ∧ tr = []) ∨
      (glb = none ∧ E.EVP_CIPHER_CTX_new = some c ∧ tr = [Event.EVP_CIPHER_CTX_new]) := by
  unfold ensure_ctx at h
  cases glb with
  | some c0 => simp at h; simp [h]
  | none =>
    cases hnew : E.EVP_CIPHER_CTX_new with
    | none => simp [hnew] at h
    | some c0 => simp [hnew] at h; simp [h]

/-- The calls of the Monte Carlo direction chain, in order: at step 0 the initialisation and
the padding switch, at any other step the copy of the entry register to `iv_ret`; for CFB1
the flag call; then `EVP_Cipher` on the buffers of the direction and the copy to
`iv_ret_after` of what is then found through the pointer taken on the entry context. -/
theorem mct_direction_trace (E : EVP Ctx) (cipher : EVP_CIPHER) (iv : Option (List Byte))
    (f f1 : Frame Ctx) (h : mct_direction E cipher iv f = some f1) :
    f1.trace = f.trace ++
      (if f.tc.mct_index = 0 then
        [Event.EVP_CipherInit_ex cipher f.tc.key iv
            (if f.tc.direction = .ACVP_SYM_CIPH_DIR_ENCRYPT then 1 else 0),
          Event.EVP_CIPHER_CTX_set_padding 0]
      else [Event.memcpy_s .iv_ret (iv_register E f.cipher_ctx)]) ++
      (if f.tc.cipher = .ACVP_TDES_CFB1 then
        [Event.EVP_CIPHER_CTX_set_flags EVP_CIPH_FLAG_LENGTH_BITS] else []) ++
      [if f.tc.direction = .ACVP_SYM_CIPH_DIR_ENCRYPT then
          Event.EVP_Cipher .ct f.tc.pt f.tc.pt_len
        else Event.EVP_Cipher .pt f.tc.ct f.tc.ct_len,
        Event.memcpy_s .iv_ret_after (iv_through E f.cipher_ctx f1.cipher_ctx)] := by
  unfold mct_direction at h
  by_cases henc : f.tc.direction = .ACVP_SYM_CIPH_DIR_ENCRYPT
  · by_cases h0 : f.tc.mct_index = 0 <;>
      by_cases hcfb : f.tc.cipher = .ACVP_TDES_CFB1 <;>
      simp [henc, h0, call_set_flags_if_cfb1, call_set_padding, call_init, copy_iv_ret, hcfb,
          copy_iv_ret_after, transform_encrypt] at h <;>
      subst h <;>
      simp [h0, henc, hcfb, iv_register, iv_through]
  · by_cases hdec : f.tc.direction = .ACVP_SYM_CIPH_DIR_DECRYPT
    swap
    · simp [henc, hdec] at h
    by_cases h0 : f.tc.mct_index = 0 <;>
      by_cases hcfb : f.tc.cipher = .ACVP_TDES_CFB1 <;>
      simp [hdec, h0, call_set_flags_if_cfb1, call_set_padding, call_init, copy_iv_ret, hcfb,
          copy_iv_ret_after, transform_decrypt] at h <;>
      subst h <;>
      simp [h0, hdec, hcfb, iv_register, iv_through]

/-- The calls of a successful Monte Carlo call up to and including the copy to
`iv_ret_after`: neither `EVP_CIPHER_CTX_cleanup` nor `EVP_CIPHER_CTX_free` is among the calls
before `EVP_Cipher`, and the cleanup is called after them exactly at step 9999. -/
theorem mct_call_trace (E : EVP Ctx) (glb : Option Ctx) (t : ACVP_TEST_CASE)
    (hmct : t.symmetric.test_type = .ACVP_SYM_TEST_TYPE_MCT)
    (hok : (app_des_handler E glb (some t)).ret = 0) :
    ∃ pre out inp inl bytes,
      Event.EVP_CIPHER_CTX_cleanup ∉ pre ∧ Event.EVP_CIPHER_CTX_free ∉ pre ∧
      (∀ o i l, Event.EVP_Cipher o i l ∉ pre) ∧
      (t.symmetric.mct_index ≠ 9999 → (app_des_handler E glb (some t)).trace =
        pre ++ [Event.EVP_Cipher out inp inl, Event.memcpy_s .iv_ret_after bytes]) ∧
      (t.symmetric.mct_index = 9999 → (app_des_handler E glb (some t)).trace =
        pre ++ [Event.EVP_Cipher out inp inl, Event.memcpy_s .iv_ret_after bytes,
          Event.EVP_CIPHER_CTX_cleanup]) := by
  obtain ⟨c, tr, cipher, iv, f1, hens, -, hdir, heq⟩ := app_des_handler_mct_ok E glb t hmct hok
  have htr := mct_direction_trace E cipher iv _ f1 hdir
  simp only [] at htr
  obtain ⟨-, -, -, -, -, hn, -, hy⟩ := return_ok_mct_fields E f1 t.symmetric.mct_index
  rw [heq]
  refine ⟨tr ++
      (if t.symmetric.mct_index = 0 then
        [Event.EVP_CipherInit_ex cipher t.symmetric.key iv
            (if t.symmetric.direction = .ACVP_SYM_CIPH_DIR_ENCRYPT then 1 else 0),
          Event.EVP_CIPHER_CTX_set_padding 0]
      else [Event.memcpy_s .iv_ret (iv_register E c)]) ++
      (if t.symmetric.cipher = .ACVP_TDES_CFB1 then
        [Event.EVP_CIPHER_CTX_set_flags EVP_CIPH_FLAG_LENGTH_BITS] else []),
    if t.symmetric.direction = .ACVP_SYM_CIPH_DIR_ENCRYPT then .ct else .pt,
    if t.symmetric.direction = .ACVP_SYM_CIPH_DIR_ENCRYPT then t.symmetric.pt
      else t.symmetric.ct,
    if t.symmetric.direction = .ACVP_SYM_CIPH_DIR_ENCRYPT then t.symmetric.pt_len
      else t.symmetric.ct_len,
    iv_through E c f1.cipher_ctx, ?_, ?_, ?_, ?_, ?_⟩
  · rcases ensure_ctx_trace E glb c tr hens with ⟨-, h⟩ | ⟨-, -, h⟩ <;> subst h <;>
      by_cases h0 : t.symmetric.mct_index = 0 <;>
      by_cases hcfb : t.symmetric.cipher = .ACVP_TDES_CFB1 <;> simp [h0, hcfb]
  · rcases ensure_ctx_trace E glb c tr hens with ⟨-, h⟩ | ⟨-, -, h⟩ <;> subst h <;>
      by_cases h0 : t.symmetric.mct_index = 0 <;>
      by_cases hcfb : t.symmetric.cipher = .ACVP_TDES_CFB1 <;> simp [h0, hcfb]
  · rcases ensure_ctx_trace E glb c tr hens with ⟨-, h⟩ | ⟨-, -, h⟩ <;> subst h <;>
      by_cases h0 : t.symmetric.mct_index = 0 <;>
      by_cases hcfb : t.symmetric.cipher = .ACVP_TDES_CFB1 <;> simp [h0, hcfb]
  · intro h9
    rw [hn h9, htr]
    by_cases henc : t.symmetric.direction = .ACVP_SYM_CIPH_DIR_ENCRYPT <;> simp [henc]
  · intro h9
    rw [hy h9, htr]
    by_cases henc : t.symmetric.direction = .ACVP_SYM_CIPH_DIR_ENCRYPT <;> simp [henc]

/-- C7: in a chain of successful Monte Carlo calls, a call whose `mct_index` is not 9999
never calls `EVP_CIPHER_CTX_cleanup`, and the call with `mct_index` 9999 calls it exactly
once, as its last call, right after `EVP_Cipher` and the `memcpy_s` call that writes
`iv_ret_after`; no call frees the context. -/
theorem C7_mct_release_only_at_9999 (E : EVP Ctx) (glb : Option Ctx)
    (tcs : List ACVP_TEST_CASE) (i : Nat) (t : ACVP_TEST_CASE) (o : Outcome Ctx)
    (hmct : ∀ t ∈ tcs, t.symmetric.test_type = .ACVP_SYM_TEST_TYPE_MCT)
    (hok : ∀ o ∈ run_chain E glb tcs, o.ret = 0)
    (ht : tcs[i]? = some t) (ho : (run_chain E glb tcs)[i]? = some o) :
    Event.EVP_CIPHER_CTX_free ∉ o.trace ∧
    (t.symmetric.mct_index ≠ 9999 → Event.EVP_CIPHER_CTX_cleanup ∉ o.trace) ∧
    (t.symmetric.mct_index = 9999 →
      o.trace.count Event.EVP_CIPHER_CTX_cleanup = 1 ∧
      ∃ pre out inp inl bytes,
        Event.EVP_CIPHER_CTX_cleanup ∉ pre ∧ (∀ o2 i2 l2, Event.EVP_Cipher o2 i2 l2 ∉ pre) ∧
        o.trace = pre ++ [Event.EVP_Cipher out inp inl, Event.memcpy_s .iv_ret_after bytes,
          Event.EVP_CIPHER_CTX_cleanup]) := by
  obtain ⟨g, hg, -⟩ := run_chain_adjacent E tcs glb i t ht
  rw [hg] at ho
  have hoeq := Option.some.inj ho
  have hret : (app_des_handler E g (some t)).ret = 0 := hok _ (List.getElem?_mem hg)
  obtain ⟨pre, out, inp, inl, bytes, hc, hf, hnc, hn, hy⟩ :=
    mct_call_trace E g t (hmct _ (List.getElem?_mem ht)) hret
  rw [← hoeq]
  refine ⟨?_, ?_, ?_⟩
  · by_cases h9 : t.symmetric.mct_index = 9999
    · rw [hy h9]
      simp [hf]
    · rw [hn h9]
      simp [hf]
  · intro h9
    rw [hn h9]
    simp [hc]
  · intro h9
    rw [hy h9]
    refine ⟨?_, pre, out, inp, inl, bytes, hc, hnc, rfl⟩
    rw [List.count_append, List.count_eq_zero_of_not_mem hc]
    simp [List.count_cons]

/-- C7 at the last call of a chain ending with steps 9998 and 9999. -/
theorem C7_mct_release_only_at_9999_witness :
    Event.EVP_CIPHER_CTX_free ∉ chain_end_last.trace ∧
    ((tc_mct 9999).mct_index ≠ 9999 → Event.EVP_CIPHER_CTX_cleanup ∉ chain_end_last.trace) ∧
    ((tc_mct 9999).mct_index = 9999 →
      chain_end_last.trace.count Event.EVP_CIPHER_CTX_cleanup = 1 ∧
      ∃ pre out inp inl bytes,
        Event.EVP_CIPHER_CTX_cleanup ∉ pre ∧ (∀ o2 i2 l2, Event.EVP_Cipher o2 i2 l2 ∉ pre) ∧
        chain_end_last.trace =
          pre ++ [Event.EVP_Cipher out inp inl, Event.memcpy_s .iv_ret_after bytes,
            Event.EVP_CIPHER_CTX_cleanup]) :=
  C7_mct_release_only_at_9999 toyEVP (some toy_running) chain_end 1 ⟨tc_mct 9999⟩
    chain_end_last (by decide) (by decide) rfl rfl

/-- What the single-shot direction chain leaves in its frame: the entry context is
configured (initialisation, padding off, bit-length flag for CFB1) for the direction,
`EVP_Cipher` runs once on it, its output goes to the output buffer of the direction and the
output length is the input length; all other fields of the case are untouched. -/
theorem single_direction_some (E : EVP Ctx) (cipher : EVP_CIPHER) (iv : Option (List Byte))
    (f f1 : Frame Ctx) (h : single_direction E cipher iv f = some f1) :
    f1.cipher_out = some f1.cipher_ctx ∧
    (f.tc.direction = .ACVP_SYM_CIPH_DIR_ENCRYPT ∨
      f.tc.direction = .ACVP_SYM_CIPH_DIR_DECRYPT) ∧
    (f.tc.direction = .ACVP_SYM_CIPH_DIR_ENCRYPT →
      f1.cipher_in = some (configure E f.cipher_ctx cipher f.tc.key iv 1
        (decide (f.tc.cipher = .ACVP_TDES_CFB1))) ∧
      f1.cipher_ctx = (E.EVP_Cipher (configure E f.cipher_ctx cipher f.tc.key iv 1
        (decide (f.tc.cipher = .ACVP_TDES_CFB1))) f.tc.ct f.tc.pt f.tc.pt_len).1 ∧
      f1.tc = { f.tc with
        ct := (E.EVP_Cipher (configure E f.cipher_ctx cipher f.tc.key iv 1
          (decide (f.tc.cipher = .ACVP_TDES_CFB1))) f.tc.ct f.tc.pt f.tc.pt_len).2
        ct_len := f.tc.pt_len }) ∧
    (f.tc.direction = .ACVP_SYM_CIPH_DIR_DECRYPT →
      f1.cipher_in = some (configure E f.cipher_ctx cipher f.tc.key iv 0
        (decide (f.tc.cipher = .ACVP_TDES_CFB1))) ∧
      f1.cipher_ctx = (E.EVP_Cipher (configure E f.cipher_ctx cipher f.tc.key iv 0
        (decide (f.tc.cipher = .ACVP_TDES_CFB1))) f.tc.pt f.tc.ct f.tc.ct_len).1 ∧
      f1.tc = { f.tc with
        pt := (E.EVP_Cipher (configure E f.cipher_ctx cipher f.tc.key iv 0
          (decide (f.tc.cipher = .ACVP_TDES_CFB1))) f.tc.pt f.tc.ct f.tc.ct_len).2
        pt_len := f.tc.ct_len }) := by
  unfold single_direction at h
  by_cases henc : f.tc.direction = .ACVP_SYM_CIPH_DIR_ENCRYPT
  · by_cases hcfb : f.tc.cipher = .ACVP_TDES_CFB1 <;>
      simp [henc, call_set_flags_if_cfb1, call_set_padding, call_init, hcfb,
          transform_encrypt] at h <;>
      subst h <;>
      simp [henc, hcfb, configure]
  · by_cases hdec : f.tc.direction = .ACVP_SYM_CIPH_DIR_DECRYPT
    swap
    · simp [henc, hdec] at h
    by_cases hcfb : f.tc.cipher = .ACVP_TDES_CFB1 <;>
      simp [hdec, call_set_flags_if_cfb1, call_set_padding, call_init, hcfb,
          transform_decrypt] at h <;>
      subst h <;>
      simp [hdec, hcfb, configure]

/-- The calls of the single-shot direction chain, in order: the initialisation, the padding
switch, for CFB1 the flag call, then `EVP_Cipher` on the buffers of the direction. -/
theorem single_direction_trace (E : EVP Ctx) (cipher : EVP_CIPHER) (iv : Option (List Byte))
    (f f1 : Frame Ctx) (h : single_direction E cipher iv f = some f1) :
    f1.trace = f.trace ++
      [Event.EVP_CipherInit_ex cipher f.tc.key iv
          (if f.tc.direction = .ACVP_SYM_CIPH_DIR_ENCRYPT then 1 else 0),
        Event.EVP_CIPHER_CTX_set_padding 0] ++
      (if f.tc.cipher = .ACVP_TDES_CFB1 then
        [Event.EVP_CIPHER_CTX_set_flags EVP_CIPH_FLAG_LENGTH_BITS] else []) ++
      [if f.tc.direction = .ACVP_SYM_CIPH_DIR_ENCRYPT then
          Event.EVP_Cipher .ct f.tc.pt f.tc.pt_len
        else Event.EVP_Cipher .pt f.tc.ct f.tc.ct_len] := by
  unfold single_direction at h
  by_cases henc : f.tc.direction = .ACVP_SYM_CIPH_DIR_ENCRYPT
  · by_cases hcfb : f.tc.cipher = .ACVP_TDES_CFB1 <;>
      simp [henc, call_set_flags_if_cfb1, call_set_padding, call_init, hcfb,
          transform_encrypt] at h <;>
      subst h <;>
      simp [henc, hcfb]
  · by_cases hdec : f.tc.direction = .ACVP_SYM_CIPH_DIR_DECRYPT
    swap
    · simp [henc, hdec] at h
    by_cases hcfb : f.tc.cipher = .ACVP_TDES_CFB1 <;>
      simp [hdec, call_set_flags_if_cfb1, call_set_padding, call_init, hcfb,
          transform_decrypt] at h <;>
      subst h <;>
      simp [hdec, hcfb]

/-- A call that finds a context in `glb_cipher_ctx` never calls `EVP_CIPHER_CTX_new`. -/
theorem no_alloc_when_present (E : EVP Ctx) (c : Ctx) (test_case : Option ACVP_TEST_CASE) :
    Event.EVP_CIPHER_CTX_new ∉ (app_des_handler E (some c) test_case).trace := by
  cases test_case with
  | none => simp [app_des_handler, fail_with]
  | some t =>
    by_cases hkey : t.symmetric.key_len = 192
    swap
    · simp [app_des_handler, hkey, fail_with]
    cases hsel : select_cipher t.symmetric with
    | none => simp [app_des_handler, hkey, ensure_ctx, hsel, fail_with]
    | some q =>
      obtain ⟨cipher, iv⟩ := q
      by_cases htype : t.symmetric.test_type = .ACVP_SYM_TEST_TYPE_MCT
      · cases hdir : mct_direction E cipher iv
          { cipher_ctx := c, tc := t.symmetric, trace := [], cipher_in := none,
            cipher_out := none } with
        | none => simp [app_des_handler, hkey, ensure_ctx, hsel, htype, hdir, fail_with]
        | some f1 =>
          have htr := mct_direction_trace E cipher iv _ f1 hdir
          simp only [] at htr
          by_cases h9 : t.symmetric.mct_index = 9999 <;>
            by_cases h0 : t.symmetric.mct_index = 0 <;>
            by_cases hcfb : t.symmetric.cipher = .ACVP_TDES_CFB1 <;>
            by_cases henc : t.symmetric.direction = .ACVP_SYM_CIPH_DIR_ENCRYPT <;>
            simp [app_des_handler, hkey, ensure_ctx, hsel, htype, hdir, return_ok,
              call_cleanup, htr, h9, h0, hcfb, henc]
      · cases hdir : single_direction E cipher iv
          { cipher_ctx := c, tc := t.symmetric, trace := [], cipher_in := none,
            cipher_out := none } with
        | none => simp [app_des_handler, hkey, ensure_ctx, hsel, htype, hdir, fail_with]
        | some f1 =>
          have htr := single_direction_trace E cipher iv _ f1 hdir
          simp only [] at htr
          by_cases hcfb : t.symmetric.cipher = .ACVP_TDES_CFB1 <;>
            by_cases henc : t.symmetric.direction = .ACVP_SYM_CIPH_DIR_ENCRYPT <;>
            simp [app_des_handler, hkey, ensure_ctx, hsel, htype, hdir, return_ok,
              call_cleanup, htr, hcfb, henc]

/-- A call with the supported key length that finds `glb_cipher_ctx` null starts by calling
`EVP_CIPHER_CTX_new`. -/
theorem alloc_first_when_absent (E : EVP Ctx) (t : ACVP_TEST_CASE)
    (hkey : t.symmetric.key_len = 192) :
    (app_des_handler E none (some t)).trace.head? = some Event.EVP_CIPHER_CTX_new := by
  cases hnew : E.EVP_CIPHER_CTX_new with
  | none => simp [app_des_handler, hkey, ensure_ctx, hnew, fail_with]
  | some c =>
    cases hsel : select_cipher t.symmetric with
    | none => simp [app_des_handler, hkey, ensure_ctx, hnew, hsel, fail_with]
    | some q =>
      obtain ⟨cipher, iv⟩ := q
      by_cases htype : t.symmetric.test_type = .ACVP_SYM_TEST_TYPE_MCT
      · cases hdir : mct_direction E cipher iv
          { cipher_ctx := c, tc := t.symmetric, trace := [Event.EVP_CIPHER_CTX_new],
            cipher_in := none, cipher_out := none } with
        | none => simp [app_des_handler, hkey, ensure_ctx, hnew, hsel, htype, hdir, fail_with]
        | some f1 =>
          have htr := mct_direction_trace E cipher iv _ f1 hdir
          simp only [] at htr
          by_cases h9 : t.symmetric.mct_index = 9999 <;>
            simp [app_des_handler, hkey, ensure_ctx, hnew, hsel, htype, hdir, return_ok,
              call_cleanup, htr, h9]
      · cases hdir : single_direction E cipher iv
          { cipher_ctx := c, tc := t.symmetric, trace := [Event.EVP_CIPHER_CTX_new],
            cipher_in := none, cipher_out := none } with
        | none => simp [app_des_handler, hkey, ensure_ctx, hnew, hsel, htype, hdir, fail_with]
        | some f1 =>
          have htr := single_direction_trace E cipher iv _ f1 hdir
          simp only [] at htr
          simp [app_des_handler, hkey, ensure_ctx, hnew, hsel, htype, hdir, return_ok,
            call_cleanup, htr]

/-- The calls of a successful single-shot call: `EVP_Cipher` and then
`EVP_CIPHER_CTX_cleanup` are the last two; neither a cleanup nor a free comes before. -/
theorem single_call_trace (E : EVP Ctx) (glb : Option Ctx) (t : ACVP_TEST_CASE)
    (hsingle : t.symmetric.test_type ≠ .ACVP_SYM_TEST_TYPE_MCT)
    (hok : (app_des_handler E glb (some t)).ret = 0) :
    ∃ pre out inp inl,
      Event.EVP_CIPHER_CTX_cleanup ∉ pre ∧ Event.EVP_CIPHER_CTX_free ∉ pre ∧
      (app_des_handler E glb (some t)).trace =
        pre ++ [Event.EVP_Cipher out inp inl, Event.EVP_CIPHER_CTX_cleanup] := by
  obtain ⟨c, tr, cipher, iv, f1, hens, -, hdir, heq⟩ :=
    app_des_handler_single_ok E glb t hsingle hok
  have htr := single_direction_trace E cipher iv _ f1 hdir
  simp only [] at htr
  rw [heq]
  refine ⟨tr ++
      [Event.EVP_CipherInit_ex cipher t.symmetric.key iv
          (if t.symmetric.direction = .ACVP_SYM_CIPH_DIR_ENCRYPT then 1 else 0),
        Event.EVP_CIPHER_CTX_set_padding 0] ++
      (if t.symmetric.cipher = .ACVP_TDES_CFB1 then
        [Event.EVP_CIPHER_CTX_set_flags EVP_CIPH_FLAG_LENGTH_BITS] else []),
    if t.symmetric.direction = .ACVP_SYM_CIPH_DIR_ENCRYPT then .ct else .pt,
    if t.symmetric.direction = .ACVP_SYM_CIPH_DIR_ENCRYPT then t.symmetric.pt
      else t.symmetric.ct,
    if t.symmetric.direction = .ACVP_SYM_CIPH_DIR_ENCRYPT then t.symmetric.pt_len
      else t.symmetric.ct_len, ?_, ?_, ?_⟩
  · rcases ensure_ctx_trace E glb c tr hens with ⟨-, h⟩ | ⟨-, -, h⟩ <;> subst h <;>
      by_cases hcfb : t.symmetric.cipher = .ACVP_TDES_CFB1 <;> simp [hcfb]
  · rcases ensure_ctx_trace E glb c tr hens with ⟨-, h⟩ | ⟨-, -, h⟩ <;> subst h <;>
      by_cases hcfb : t.symmetric.cipher = .ACVP_TDES_CFB1 <;> simp [hcfb]
  · simp only [return_ok, call_cleanup, htr]
    by_cases henc : t.symmetric.direction = .ACVP_SYM_CIPH_DIR_ENCRYPT <;> simp [henc]

/-- C8, as stated, fails: after a successful single-shot call on a fresh session (a call
that ends with `EVP_CIPHER_CTX_cleanup`) `glb_cipher_ctx` is not null, and the next call
does not call `EVP_CIPHER_CTX_new`. -/
theorem C8_instance_present_after_release :
    (app_des_handler toyEVP none (some ⟨tc_cbc⟩)).ret = 0 ∧
    (app_des_handler toyEVP none (some ⟨tc_cbc⟩)).trace.getLast? =
      some Event.EVP_CIPHER_CTX_cleanup ∧
    (app_des_handler toyEVP none (some ⟨tc_cbc⟩)).glb_cipher_ctx ≠ none ∧
    Event.EVP_CIPHER_CTX_new ∉
      (app_des_handler toyEVP (app_des_handler toyEVP none (some ⟨tc_cbc⟩)).glb_cipher_ctx
        (some ⟨tc_cbc⟩)).trace := by
  decide

/-- C8 (amended): a call that releases the session (a successful single-shot call, or a
successful Monte Carlo call at step 9999) ends with `EVP_CIPHER_CTX_cleanup` and frees
nothing: `glb_cipher_ctx` still holds the context, cleaned up, and the next call of
`app_des_handler` does not allocate. Only `app_des_cleanup` frees the context and sets
`glb_cipher_ctx` to null, and then the next call of `app_des_handler` with key length 192
starts by allocating a new one. -/
theorem C8_release_keeps_instance (E : EVP Ctx) (glb : Option Ctx) (t : ACVP_TEST_CASE)
    (hok : (app_des_handler E glb (some t)).ret = 0)
    (hrel : t.symmetric.test_type ≠ .ACVP_SYM_TEST_TYPE_MCT ∨ t.symmetric.mct_index = 9999) :
    (∃ cout, (app_des_handler E glb (some t)).cipher_out = some cout ∧
      (app_des_handler E glb (some t)).glb_cipher_ctx =
        some (E.EVP_CIPHER_CTX_cleanup cout)) ∧
    (app_des_handler E glb (some t)).trace.getLast? = some Event.EVP_CIPHER_CTX_cleanup ∧
    Event.EVP_CIPHER_CTX_free ∉ (app_des_handler E glb (some t)).trace ∧
    (∀ next, Event.EVP_CIPHER_CTX_new ∉
      (app_des_handler E (app_des_handler E glb (some t)).glb_cipher_ctx next).trace) ∧
    app_des_cleanup (app_des_handler E glb (some t)).glb_cipher_ctx =
      (none, [Event.EVP_CIPHER_CTX_free]) ∧
    (∀ next : ACVP_TEST_CASE, next.symmetric.key_len = 192 →
      (app_des_handler E (app_des_cleanup (app_des_handler E glb (some t)).glb_cipher_ctx).1
        (some next)).trace.head? = some Event.EVP_CIPHER_CTX_new) := by
  have key : ∃ cout, (app_des_handler E glb (some t)).cipher_out = some cout ∧
      (app_des_handler E glb (some t)).glb_cipher_ctx =
        some (E.EVP_CIPHER_CTX_cleanup cout) ∧
      (app_des_handler E glb (some t)).trace.getLast? = some Event.EVP_CIPHER_CTX_cleanup ∧
      Event.EVP_CIPHER_CTX_free ∉ (app_des_handler E glb (some t)).trace := by
    by_cases hmct : t.symmetric.test_type = .ACVP_SYM_TEST_TYPE_MCT
    · have h9 : t.symmetric.mct_index = 9999 := by
        rcases hrel with h | h
        · exact absurd hmct h
        · exact h
      obtain ⟨pre, out, inp, inl, bytes, -, hf, -, -, hy⟩ := mct_call_trace E glb t hmct hok
      obtain ⟨c, tr, cipher, iv, f1, -, -, hdir, heq⟩ :=
        app_des_handler_mct_ok E glb t hmct hok
      obtain ⟨hout, -⟩ := mct_direction_some E cipher iv _ f1 hdir
      obtain ⟨-, -, -, hco, -, -, hg, -⟩ := return_ok_mct_fields E f1 t.symmetric.mct_index
      refine ⟨f1.cipher_ctx, ?_, ?_, ?_, ?_⟩
      · rw [heq]
        exact hco.trans hout
      · rw [heq]
        exact hg h9
      · rw [hy h9]
        simp
      · rw [hy h9]
        simp [hf]
    · obtain ⟨pre, out, inp, inl, -, hf, htr⟩ := single_call_trace E glb t hmct hok
      obtain ⟨c, tr, cipher, iv, f1, -, -, hdir, heq⟩ :=
        app_des_handler_single_ok E glb t hmct hok
      obtain ⟨hout, -⟩ := single_direction_some E cipher iv _ f1 hdir
      refine ⟨f1.cipher_ctx, ?_, ?_, ?_, ?_⟩
      · rw [heq]
        simpa [return_ok, call_cleanup] using hout
      · rw [heq]
        simp [return_ok, call_cleanup]
      · rw [htr]
        simp
      · rw [htr]
        simp [hf]
  obtain ⟨cout, hco, hg, hl, hf⟩ := key
  refine ⟨⟨cout, hco, hg⟩, hl, hf, ?_, ?_, ?_⟩
  · intro next
    rw [hg]
    exact no_alloc_when_present E _ next
  · rw [hg]
    rfl
  · intro next hkey
    rw [hg]
    exact alloc_first_when_absent E next hkey

/-- C8 (amended) at a single-shot CBC encrypt call on a fresh session of the small engine. -/
theorem C8_release_keeps_instance_witness :
    (app_des_handler toyEVP none (some ⟨tc_cbc⟩)).glb_cipher_ctx = some toy_blank ∧
    app_des_cleanup (app_des_handler toyEVP none (some ⟨tc_cbc⟩)).glb_cipher_ctx =
      (none, [Event.EVP_CIPHER_CTX_free]) ∧
    (app_des_handler toyEVP
      (app_des_cleanup (app_des_handler toyEVP none (some ⟨tc_cbc⟩)).glb_cipher_ctx).1
        (some ⟨tc_cbc⟩)).trace.head? = some Event.EVP_CIPHER_CTX_new :=
  ⟨by decide,
    (C8_release_keeps_instance toyEVP none ⟨tc_cbc⟩ (by decide) (Or.inl (by decide))).2.2.2.2.1,
    (C8_release_keeps_instance toyEVP none ⟨tc_cbc⟩ (by decide)
      (Or.inl (by decide))).2.2.2.2.2 ⟨tc_cbc⟩ (by decide)⟩

/-- C9: round trip on the single-shot path. Let `te` be a single-shot ENCRYPT case with key
length 192 and a supported variant, and `oe` the case its call leaves (holding the
ciphertext). The single-shot DECRYPT call on the case with the same variant, key and IV and
that ciphertext and length, run from any other session state `g2` (a fresh one included),
succeeds and leaves `pt_len` equal to the original `pt_len` and a `pt` that reads as the
original plaintext. `view buf len` is the reading of a buffer with its length field (for
instance its first `len` bytes); the engine is taken to invert: decrypting, under the
configuration the source sets up for DECRYPT, what it encrypted under the configuration the
source sets up for ENCRYPT, reads as the input. -/
theorem C9_single_shot_round_trip {α : Type} (view : List Byte → Nat → α) (E : EVP Ctx)
    (g1 g2 : Option Ctx) (te oe : ACVP_TEST_CASE) (pt0 : List Byte) (pt_len0 : Nat)
    (hkey : te.symmetric.key_len = 192)
    (hsup : (select_cipher te.symmetric).isSome = true)
    (hsingle : te.symmetric.test_type ≠ .ACVP_SYM_TEST_TYPE_MCT)
    (hdir : te.symmetric.direction = .ACVP_SYM_CIPH_DIR_ENCRYPT)
    (halloc1 : g1 ≠ none ∨ E.EVP_CIPHER_CTX_new ≠ none)
    (halloc2 : g2 ≠ none ∨ E.EVP_CIPHER_CTX_new ≠ none)
    (henc : (app_des_handler E g1 (some te)).test_case = some oe)
    (hinv : ∀ cipher iv, select_cipher te.symmetric = some (cipher, iv) →
      ∀ (c1 c2 : Ctx) (o1 o2 : List Byte),
        view (E.EVP_Cipher
            (configure E c2 cipher te.symmetric.key iv 0
              (decide (te.symmetric.cipher = .ACVP_TDES_CFB1))) o2
            (E.EVP_Cipher
              (configure E c1 cipher te.symmetric.key iv 1
                (decide (te.symmetric.cipher = .ACVP_TDES_CFB1))) o1
              te.symmetric.pt te.symmetric.pt_len).2
            te.symmetric.pt_len).2 te.symmetric.pt_len =
          view te.symmetric.pt te.symmetric.pt_len) :
    (app_des_handler E g1 (some te)).ret = 0 ∧
    ∃ od,
      (app_des_handler E g2
        (some ⟨decrypt_case_of te.symmetric oe.symmetric pt0 pt_len0⟩)).ret = 0 ∧
      (app_des_handler E g2
        (some ⟨decrypt_case_of te.symmetric oe.symmetric pt0 pt_len0⟩)).test_case = some od ∧
      od.symmetric.pt_len = te.symmetric.pt_len ∧
      view od.symmetric.pt od.symmetric.pt_len = view te.symmetric.pt te.symmetric.pt_len := by
  have hoke : (app_des_handler E g1 (some te)).ret = 0 :=
    (app_des_handler_ret E g1 te).1.mpr
      ⟨hkey, (ensure_ctx_isSome E g1).mpr halloc1, hsup, Or.inl hdir⟩
  have hsel_d : select_cipher (decrypt_case_of te.symmetric oe.symmetric pt0 pt_len0) =
      select_cipher te.symmetric := rfl
  have hokd : (app_des_handler E g2
      (some ⟨decrypt_case_of te.symmetric oe.symmetric pt0 pt_len0⟩)).ret = 0 :=
    (app_des_handler_ret E g2 _).1.mpr
      ⟨hkey, (ensure_ctx_isSome E g2).mpr halloc2, hsup, Or.inr rfl⟩
  refine ⟨hoke, ?_⟩
  obtain ⟨c1, tr1, cipher, iv, fe, -, hsel, hdire, heqe⟩ :=
    app_des_handler_single_ok E g1 te hsingle hoke
  obtain ⟨-, -, hfe, -⟩ := single_direction_some E cipher iv _ fe hdire
  obtain ⟨-, -, htce⟩ := hfe hdir
  simp only [] at htce
  rw [heqe] at henc
  have hoe : oe.symmetric = fe.tc := by
    simp only [return_ok, call_cleanup] at henc
    have h := Option.some.inj henc
    rw [← h]
  obtain ⟨c2, tr2, cipher2, iv2, fd, -, hsel2, hdird, heqd⟩ :=
    app_des_handler_single_ok E g2 ⟨decrypt_case_of te.symmetric oe.symmetric pt0 pt_len0⟩
      hsingle hokd
  have hsame : (cipher2, iv2) = (cipher, iv) := by
    have h : select_cipher (decrypt_case_of te.symmetric oe.symmetric pt0 pt_len0) =
        some (cipher2, iv2) := hsel2
    rw [hsel_d, hsel] at h
    exact (Option.some.inj h).symm
  obtain ⟨hc, hi⟩ := Prod.mk.inj hsame
  subst hc
  subst hi
  obtain ⟨-, -, -, hfd⟩ := single_direction_some E cipher2 iv2 _ fd hdird
  obtain ⟨-, -, htcd⟩ := hfd rfl
  simp only [] at htcd
  refine ⟨{ symmetric := fd.tc }, hokd, ?_, ?_, ?_⟩
  · rw [heqd]
    simp [return_ok, call_cleanup]
  · rw [htcd]
    simp only [decrypt_case_of]
    rw [hoe, htce]
  · rw [htcd]
    simp only [decrypt_case_of]
    rw [hoe, htce]
    exact hinv cipher2 iv2 hsel c1 c2 te.symmetric.ct pt0

/-- C9 at the CBC case `tc_cbc` on the small engine, the plaintext read as the first
`pt_len` bytes of `pt`. -/
theorem C9_single_shot_round_trip_witness :
    (app_des_handler toyEVP none (some ⟨tc_cbc⟩)).ret = 0 ∧
    ∃ od,
      (app_des_handler toyEVP none
        (some ⟨decrypt_case_of tc_cbc tc_cbc_encrypted (List.replicate 8 0) 0⟩)).ret = 0 ∧
      (app_des_handler toyEVP none
        (some ⟨decrypt_case_of tc_cbc tc_cbc_encrypted (List.replicate 8 0) 0⟩)).test_case =
          some od ∧
      od.symmetric.pt_len = tc_cbc.pt_len ∧
      od.symmetric.pt.take od.symmetric.pt_len = tc_cbc.pt.take tc_cbc.pt_len :=
  C9_single_shot_round_trip (fun buf len => buf.take len) toyEVP none none ⟨tc_cbc⟩
    ⟨tc_cbc_encrypted⟩ (List.replicate 8 0) 0 (by decide) (by decide) (by decide) (by decide)
    (Or.inr (by decide)) (Or.inr (by decide)) (by decide)
    (by
      intro cipher iv hsel c1 c2 o1 o2
      simp [toyEVP, toy_cipher, configure, tc_cbc])

/-- C10: on every successful call, Monte Carlo or single-shot: with direction ENCRYPT the one
`EVP_Cipher` call reads `pt` with length `pt_len` and writes `ct`, `ct_len` becomes `pt_len`,
and `pt`, `pt_len` keep their values; with direction DECRYPT it reads `ct` with length
`ct_len` and writes `pt`, `pt_len` becomes `ct_len`, and `ct`, `ct_len` keep their values.
The output length is the input length itself. -/
theorem C10_direction_buffers_and_length (E : EVP Ctx) (glb : Option Ctx)
    (t : ACVP_TEST_CASE) (hok : (app_des_handler E glb (some t)).ret = 0) :
    ∃ t2 cin,
      (app_des_handler E glb (some t)).test_case = some t2 ∧
      (app_des_handler E glb (some t)).cipher_in = some cin ∧
      (t.symmetric.direction = .ACVP_SYM_CIPH_DIR_ENCRYPT →
        Event.EVP_Cipher .ct t.symmetric.pt t.symmetric.pt_len ∈
          (app_des_handler E glb (some t)).trace ∧
        t2.symmetric.ct =
          (E.EVP_Cipher cin t.symmetric.ct t.symmetric.pt t.symmetric.pt_len).2 ∧
        t2.symmetric.ct_len = t.symmetric.pt_len ∧
        t2.symmetric.pt = t.symmetric.pt ∧ t2.symmetric.pt_len = t.symmetric.pt_len) ∧
      (t.symmetric.direction = .ACVP_SYM_CIPH_DIR_DECRYPT →
        Event.EVP_Cipher .pt t.symmetric.ct t.symmetric.ct_len ∈
          (app_des_handler E glb (some t)).trace ∧
        t2.symmetric.pt =
          (E.EVP_Cipher cin t.symmetric.pt t.symmetric.ct t.symmetric.ct_len).2 ∧
        t2.symmetric.pt_len = t.symmetric.ct_len ∧
        t2.symmetric.ct = t.symmetric.ct ∧ t2.symmetric.ct_len = t.symmetric.ct_len) := by
  by_cases hmct : t.symmetric.test_type = .ACVP_SYM_TEST_TYPE_MCT
  · obtain ⟨c, tr, cipher, iv, f1, -, -, hdir, heq⟩ := app_des_handler_mct_ok E glb t hmct hok
    obtain ⟨-, -, cin, hin, henc, hdec, -⟩ := mct_direction_some E cipher iv _ f1 hdir
    have htr := mct_direction_trace E cipher iv _ f1 hdir
    simp only [] at htr henc hdec
    obtain ⟨-, htc, hci, -, -, hn, -, hy⟩ := return_ok_mct_fields E f1 t.symmetric.mct_index
    have hmem : ∀ e, e ∈ f1.trace → e ∈ (app_des_handler E glb (some t)).trace := by
      intro e he
      rw [heq]
      by_cases h9 : t.symmetric.mct_index = 9999
      · rw [hy h9]
        exact List.mem_append_left _ he
      · rw [hn h9]
        exact he
    refine ⟨{ symmetric := f1.tc }, cin, ?_, ?_, ?_, ?_⟩
    · rw [heq]
      exact htc
    · rw [heq]
      exact hci.trans hin
    · intro hd
      obtain ⟨-, h2, h3, h4, h5⟩ := henc hd
      refine ⟨hmem _ ?_, h2, h3, h4, h5⟩
      rw [htr]
      simp [hd]
    · intro hd
      obtain ⟨-, h2, h3, h4, h5⟩ := hdec hd
      refine ⟨hmem _ ?_, h2, h3, h4, h5⟩
      rw [htr]
      simp [hd]
  · obtain ⟨c, tr, cipher, iv, f1, -, -, hdir, heq⟩ :=
      app_des_handler_single_ok E glb t hmct hok
    obtain ⟨-, -, henc, hdec⟩ := single_direction_some E cipher iv _ f1 hdir
    have htr := single_direction_trace E cipher iv _ f1 hdir
    simp only [] at htr henc hdec
    rw [heq]
    by_cases hd : t.symmetric.direction = .ACVP_SYM_CIPH_DIR_ENCRYPT
    · obtain ⟨h1, -, h3⟩ := henc hd
      refine ⟨{ symmetric := f1.tc }, _, rfl, h1, ?_, ?_⟩
      · intro _
        simp [return_ok, call_cleanup, htr, hd, h3]
      · intro hd2
        rw [hd] at hd2
        cases hd2
    · refine ⟨{ symmetric := f1.tc }, configure E c cipher t.symmetric.key iv 0
        (decide (t.symmetric.cipher = .ACVP_TDES_CFB1)), rfl, ?_, ?_, ?_⟩
      · rcases (single_direction_some E cipher iv _ f1 hdir).2.1 with h | h
        · exact absurd h hd
        · exact (hdec h).1
      · intro hd2
        exact absurd hd2 hd
      · intro hd2
        obtain ⟨-, -, h3⟩ := hdec hd2
        simp [return_ok, call_cleanup, htr, hd, h3]

/-- C10 at a single-shot CBC encrypt case: `ct_len` becomes the `pt_len` of the case, 8. -/
theorem C10_direction_buffers_and_length_witness :
    ∃ t2 cin,
      (app_des_handler toyEVP none (some ⟨tc_cbc⟩)).test_case = some t2 ∧
      (app_des_handler toyEVP none (some ⟨tc_cbc⟩)).cipher_in = some cin ∧
      (tc_cbc.direction = .ACVP_SYM_CIPH_DIR_ENCRYPT →
        Event.EVP_Cipher .ct tc_cbc.pt tc_cbc.pt_len ∈
          (app_des_handler toyEVP none (some ⟨tc_cbc⟩)).trace ∧
        t2.symmetric.ct = (toyEVP.EVP_Cipher cin tc_cbc.ct tc_cbc.pt tc_cbc.pt_len).2 ∧
        t2.symmetric.ct_len = tc_cbc.pt_len ∧
        t2.symmetric.pt = tc_cbc.pt ∧ t2.symmetric.pt_len = tc_cbc.pt_len) ∧
      (tc_cbc.direction = .ACVP_SYM_CIPH_DIR_DECRYPT →
        Event.EVP_Cipher .pt tc_cbc.ct tc_cbc.ct_len ∈
          (app_des_handler toyEVP none (some ⟨tc_cbc⟩)).trace ∧
        t2.symmetric.pt = (toyEVP.EVP_Cipher cin tc_cbc.pt tc_cbc.ct tc_cbc.ct_len).2 ∧
        t2.symmetric.pt_len = tc_cbc.ct_len ∧
        t2.symmetric.ct = tc_cbc.ct ∧ t2.symmetric.ct_len = tc_cbc.ct_len) :=
  C10_direction_buffers_and_length toyEVP none ⟨tc_cbc⟩ (by decide)

/-- The local `iv` pointer after the mode switch: null for ECB, `tc->iv` for the other
supported variants. -/
theorem select_cipher_iv (tc : ACVP_SYM_CIPHER_TC) (cipher : EVP_CIPHER)
    (iv : Option (List Byte)) (h : select_cipher tc = some (cipher, iv)) :
    iv = if tc.cipher = .ACVP_TDES_ECB then none else some tc.iv := by
  unfold select_cipher at h
  cases hc : tc.cipher <;> simp [hc] at h <;> simp [h]

/-- Step 0 of the Monte Carlo direction chain: the context that reaches `EVP_Cipher` is the
entry context configured with the key of the case, the local `iv` pointer and the `enc`
flag of the direction. -/
theorem mct_direction_first (E : EVP Ctx) (cipher : EVP_CIPHER) (iv : Option (List Byte))
    (f f1 : Frame Ctx) (h : mct_direction E cipher iv f = some f1)
    (h0 : f.tc.mct_index = 0) :
    f1.cipher_in = some (configure E f.cipher_ctx cipher f.tc.key iv
      (if f.tc.direction = .ACVP_SYM_CIPH_DIR_ENCRYPT then 1 else 0)
      (decide (f.tc.cipher = .ACVP_TDES_CFB1))) := by
  unfold mct_direction at h
  by_cases henc : f.tc.direction = .ACVP_SYM_CIPH_DIR_ENCRYPT
  · by_cases hcfb : f.tc.cipher = .ACVP_TDES_CFB1 <;>
      simp [henc, h0, call_set_flags_if_cfb1, call_set_padding, call_init, hcfb,
          copy_iv_ret_after, transform_encrypt] at h <;>
      subst h <;>
      simp [henc, hcfb, configure]
  · by_cases hdec : f.tc.direction = .ACVP_SYM_CIPH_DIR_DECRYPT
    swap
    · simp [henc, hdec] at h
    by_cases hcfb : f.tc.cipher = .ACVP_TDES_CFB1 <;>
      simp [hdec, h0, call_set_flags_if_cfb1, call_set_padding, call_init, hcfb,
          copy_iv_ret_after, transform_decrypt] at h <;>
      subst h <;>
      simp [hdec, hcfb, configure]

/-- C11: on every successful Monte Carlo call with `mct_index` 0 the engine is configured
before the transform with the key of this case, its IV (a null IV pointer for ECB) and the
`enc` flag of its direction: the calls after the context check are `EVP_CipherInit_ex`,
`EVP_CIPHER_CTX_set_padding(ctx, 0)`, for CFB1 the flag call, then `EVP_Cipher` and the copy
to `iv_ret_after` (of what is found, in the context `cout` the transform left, through the
pointer taken on the entry context `c`); the context that reaches `EVP_Cipher` is the
configured one; and `iv_ret` is exactly as it was before the call. -/
theorem C11_mct_step0_configures_and_keeps_iv_ret (E : EVP Ctx) (glb : Option Ctx)
    (t : ACVP_TEST_CASE)
    (hmct : t.symmetric.test_type = .ACVP_SYM_TEST_TYPE_MCT)
    (h0 : t.symmetric.mct_index = 0)
    (hok : (app_des_handler E glb (some t)).ret = 0) :
    ∃ c tr cipher iv t2 cout,
      ensure_ctx E glb = some (c, tr) ∧
      select_cipher t.symmetric = some (cipher, iv) ∧
      iv = (if t.symmetric.cipher = .ACVP_TDES_ECB then none else some t.symmetric.iv) ∧
      (app_des_handler E glb (some t)).cipher_in =
        some (configure E c cipher t.symmetric.key iv
          (if t.symmetric.direction = .ACVP_SYM_CIPH_DIR_ENCRYPT then 1 else 0)
          (decide (t.symmetric.cipher = .ACVP_TDES_CFB1))) ∧
      (app_des_handler E glb (some t)).trace = tr ++
        [Event.EVP_CipherInit_ex cipher t.symmetric.key iv
            (if t.symmetric.direction = .ACVP_SYM_CIPH_DIR_ENCRYPT then 1 else 0),
          Event.EVP_CIPHER_CTX_set_padding 0] ++
        (if t.symmetric.cipher = .ACVP_TDES_CFB1 then
          [Event.EVP_CIPHER_CTX_set_flags EVP_CIPH_FLAG_LENGTH_BITS] else []) ++
        [if t.symmetric.direction = .ACVP_SYM_CIPH_DIR_ENCRYPT then
            Event.EVP_Cipher .ct t.symmetric.pt t.symmetric.pt_len
          else Event.EVP_Cipher .pt t.symmetric.ct t.symmetric.ct_len,
          Event.memcpy_s .iv_ret_after (iv_through E c cout)] ∧
      (app_des_handler E glb (some t)).cipher_out = some cout ∧
      (app_des_handler E glb (some t)).test_case = some t2 ∧
      t2.symmetric.iv_ret = t.symmetric.iv_ret := by
  obtain ⟨c, tr, cipher, iv, f1, hens, hsel, hdir, heq⟩ :=
    app_des_handler_mct_ok E glb t hmct hok
  obtain ⟨hout, -, cin, -, -, -, hkeep, -⟩ := mct_direction_some E cipher iv _ f1 hdir
  have hin := mct_direction_first E cipher iv _ f1 hdir h0
  have htr := mct_direction_trace E cipher iv _ f1 hdir
  simp only [] at htr hin hkeep
  have h9 : t.symmetric.mct_index ≠ 9999 := by omega
  obtain ⟨-, htc, hci, hco, -, hn, -⟩ := return_ok_mct_fields E f1 t.symmetric.mct_index
  refine ⟨c, tr, cipher, iv, { symmetric := f1.tc }, f1.cipher_ctx, hens, hsel,
    select_cipher_iv _ _ _ hsel, ?_, ?_, ?_, ?_, hkeep h0⟩
  · rw [heq]
    exact hci.trans hin
  · rw [heq, hn h9, htr]
    simp [h0]
  · rw [heq]
    exact hco.trans hout
  · rw [heq]
    exact htc

/-- C11 at step 0 of an ECB decrypt chain on a fresh session of the small engine: the
initialisation gets a null IV pointer and `enc = 0`, and `iv_ret` keeps its bytes. -/
theorem C11_mct_step0_configures_and_keeps_iv_ret_witness :
    (∃ c tr cipher iv t2 cout,
      ensure_ctx toyEVP none = some (c, tr) ∧
      select_cipher tc_mct_ecb = some (cipher, iv) ∧
      iv = (if tc_mct_ecb.cipher = .ACVP_TDES_ECB then none else some tc_mct_ecb.iv) ∧
      (app_des_handler toyEVP none (some ⟨tc_mct_ecb⟩)).cipher_in =
        some (configure toyEVP c cipher tc_mct_ecb.key iv
          (if tc_mct_ecb.direction = .ACVP_SYM_CIPH_DIR_ENCRYPT then 1 else 0)
          (decide (tc_mct_ecb.cipher = .ACVP_TDES_CFB1))) ∧
      (app_des_handler toyEVP none (some ⟨tc_mct_ecb⟩)).trace = tr ++
        [Event.EVP_CipherInit_ex cipher tc_mct_ecb.key iv
            (if tc_mct_ecb.direction = .ACVP_SYM_CIPH_DIR_ENCRYPT then 1 else 0),
          Event.EVP_CIPHER_CTX_set_padding 0] ++
        (if tc_mct_ecb.cipher = .ACVP_TDES_CFB1 then
          [Event.EVP_CIPHER_CTX_set_flags EVP_CIPH_FLAG_LENGTH_BITS] else []) ++
        [if tc_mct_ecb.direction = .ACVP_SYM_CIPH_DIR_ENCRYPT then
            Event.EVP_Cipher .ct tc_mct_ecb.pt tc_mct_ecb.pt_len
          else Event.EVP_Cipher .pt tc_mct_ecb.ct tc_mct_ecb.ct_len,
          Event.memcpy_s .iv_ret_after (iv_through toyEVP c cout)] ∧
      (app_des_handler toyEVP none (some ⟨tc_mct_ecb⟩)).cipher_out = some cout ∧
      (app_des_handler toyEVP none (some ⟨tc_mct_ecb⟩)).test_case = some t2 ∧
      t2.symmetric.iv_ret = tc_mct_ecb.iv_ret) ∧
    (app_des_handler toyEVP none (some ⟨tc_mct_ecb⟩)).trace =
      [Event.EVP_CIPHER_CTX_new,
        Event.EVP_CipherInit_ex .EVP_des_ede3_ecb (List.replicate 24 7) none 0,
        Event.EVP_CIPHER_CTX_set_padding 0,
        Event.EVP_Cipher .pt [9, 8, 7, 6, 5, 4, 3, 2] 8,
        Event.memcpy_s .iv_ret_after (some [8, 7, 6, 5, 4, 3, 2, 1])] :=
  ⟨C11_mct_step0_configures_and_keeps_iv_ret toyEVP none ⟨tc_mct_ecb⟩ rfl rfl (by decide),
    by decide⟩

/-- The four `return 1` exits on a non-null test case: key length, failed allocation,
unsupported mode, unsupported direction, each with its outcome. -/
theorem failure_outcome (E : EVP Ctx) (glb : Option Ctx) (t : ACVP_TEST_CASE)
    (hfail : (app_des_handler E glb (some t)).ret ≠ 0) :
    (t.symmetric.key_len ≠ 192 ∧
      app_des_handler E glb (some t) =
        fail_with (some t) glb [Event.printf msg_key_length]) ∨
    (t.symmetric.key_len = 192 ∧ ensure_ctx E glb = none ∧
      app_des_handler E glb (some t) =
        fail_with (some t) none [Event.EVP_CIPHER_CTX_new, Event.printf msg_alloc]) ∨
    (∃ c tr, t.symmetric.key_len = 192 ∧ ensure_ctx E glb = some (c, tr) ∧
      select_cipher t.symmetric = none ∧
      app_des_handler E glb (some t) =
        fail_with (some t) (some c) (tr ++ [Event.printf msg_mode])) ∨
    (∃ c tr, t.symmetric.key_len = 192 ∧ ensure_ctx E glb = some (c, tr) ∧
      (select_cipher t.symmetric).isSome = true ∧
      t.symmetric.direction ≠ .ACVP_SYM_CIPH_DIR_ENCRYPT ∧
      t.symmetric.direction ≠ .ACVP_SYM_CIPH_DIR_DECRYPT ∧
      app_des_handler E glb (some t) =
        fail_with (some t) (some c) (tr ++ [Event.printf msg_direction])) := by
  by_cases hkey : t.symmetric.key_len = 192
  swap
  · left
    simp [app_des_handler, hkey]
  right
  cases hens : ensure_ctx E glb with
  | none =>
    left
    simp [app_des_handler, hkey, hens]
  | some p =>
    obtain ⟨c, tr⟩ := p
    right
    cases hsel : select_cipher t.symmetric with
    | none =>
      left
      exact ⟨c, tr, hkey, rfl, rfl, by simp [app_des_handler, hkey, hens, hsel]⟩
    | some q =>
      obtain ⟨cipher, iv⟩ := q
      right
      have hr := (app_des_handler_ret E glb t).1
      have hne : ¬ (t.symmetric.direction = .ACVP_SYM_CIPH_DIR_ENCRYPT ∨
          t.symmetric.direction = .ACVP_SYM_CIPH_DIR_DECRYPT) := by
        intro hd
        exact hfail (hr.mpr ⟨hkey, by simp [hens], by simp [hsel], hd⟩)
      have hne1 : t.symmetric.direction ≠ .ACVP_SYM_CIPH_DIR_ENCRYPT :=
        fun h => hne (Or.inl h)
      have hne2 : t.symmetric.direction ≠ .ACVP_SYM_CIPH_DIR_DECRYPT :=
        fun h => hne (Or.inr h)
      refine ⟨c, tr, hkey, rfl, rfl, hne1, hne2, ?_⟩
      by_cases htype : t.symmetric.test_type = .ACVP_SYM_TEST_TYPE_MCT
      · simp [app_des_handler, hkey, hens, hsel, htype, mct_direction, hne1, hne2]
      · simp [app_des_handler, hkey, hens, hsel, htype, single_direction, hne1, hne2]

/-- C12, as stated, fails: from a session without an engine instance, a call that fails in
the unsupported-mode branch, and one that fails in the unsupported-direction branch, both
leave an allocated instance behind. -/
theorem C12_validation_failure_can_allocate :
    (app_des_handler toyEVP none (some ⟨tc_ctr⟩)).ret = 1 ∧
    Event.printf msg_mode ∈ (app_des_handler toyEVP none (some ⟨tc_ctr⟩)).trace ∧
    (app_des_handler toyEVP none (some ⟨tc_ctr⟩)).glb_cipher_ctx ≠ none ∧
    (app_des_handler toyEVP none (some ⟨tc_mct_bad_direction⟩)).ret = 1 ∧
    Event.printf msg_direction ∈
      (app_des_handler toyEVP none (some ⟨tc_mct_bad_direction⟩)).trace ∧
    (app_des_handler toyEVP none (some ⟨tc_mct_bad_direction⟩)).glb_cipher_ctx ≠ none := by
  decide

/-- C12 (amended): only the key-length check comes before the session is touched; the mode
and direction checks come after the context check of lines 47-53 and before any
configuration or transform. Whenever `app_des_handler` fails in the key-length, mode or
direction branch: the calls made are at most `EVP_CIPHER_CTX_new` and the `printf`, no
transform has run, and an engine instance that was present is left as it was; in the
key-length branch the session is identical to what it was; in the mode and direction
branches with no instance present before, the session now holds the newly allocated
instance, untouched. -/
theorem C12_validation_failure_session (E : EVP Ctx) (glb : Option Ctx) (t : ACVP_TEST_CASE)
    (hfail : (app_des_handler E glb (some t)).ret ≠ 0)
    (hwhy : Event.printf msg_key_length ∈ (app_des_handler E glb (some t)).trace ∨
      Event.printf msg_mode ∈ (app_des_handler E glb (some t)).trace ∨
      Event.printf msg_direction ∈ (app_des_handler E glb (some t)).trace) :
    (∀ e ∈ (app_des_handler E glb (some t)).trace,
      e = Event.EVP_CIPHER_CTX_new ∨ ∃ m, e = Event.printf m) ∧
    (app_des_handler E glb (some t)).cipher_in = none ∧
    (glb ≠ none → (app_des_handler E glb (some t)).glb_cipher_ctx = glb) ∧
    (Event.printf msg_key_length ∈ (app_des_handler E glb (some t)).trace →
      (app_des_handler E glb (some t)).glb_cipher_ctx = glb) ∧
    (glb = none → Event.printf msg_key_length ∉ (app_des_handler E glb (some t)).trace →
      E.EVP_CIPHER_CTX_new ≠ none ∧
      (app_des_handler E glb (some t)).glb_cipher_ctx = E.EVP_CIPHER_CTX_new ∧
      (app_des_handler E glb (some t)).trace.head? = some Event.EVP_CIPHER_CTX_new) := by
  rcases failure_outcome E glb t hfail with
    ⟨-, heq⟩ | ⟨-, -, heq⟩ | ⟨c, tr, -, hens, -, heq⟩ | ⟨c, tr, -, hens, -, -, -, heq⟩
  · rw [heq]
    simp [fail_with]
  · rw [heq] at hwhy
    simp [fail_with, msg_key_length, msg_alloc, msg_mode, msg_direction] at hwhy
  · rw [heq]
    rcases ensure_ctx_trace E glb c tr hens with ⟨hg, htr⟩ | ⟨hg, hnew, htr⟩
    · subst hg
      subst htr
      simp [fail_with, msg_key_length, msg_mode]
    · subst hg
      subst htr
      simp [fail_with, msg_key_length, msg_mode, hnew]
  · rw [heq]
    rcases ensure_ctx_trace E glb c tr hens with ⟨hg, htr⟩ | ⟨hg, hnew, htr⟩
    · subst hg
      subst htr
      simp [fail_with, msg_key_length, msg_direction]
    · subst hg
      subst htr
      simp [fail_with, msg_key_length, msg_direction, hnew]

/-- C12 (amended) at a counter-mode case on a session that holds a running context: the
call fails in the mode branch and the context is left as it was. -/
theorem C12_validation_failure_session_witness :
    (app_des_handler toyEVP (some toy_running) (some ⟨tc_ctr⟩)).glb_cipher_ctx =
      some toy_running :=
  (C12_validation_failure_session toyEVP (some toy_running) ⟨tc_ctr⟩ (by decide)
    (Or.inr (Or.inl (by decide)))).2.2.1 (by decide)

/-- The calls of a successful call, in order: the context check; then the initialisation and
the padding switch (single-shot, or Monte Carlo step 0) or the copy of the register to
`iv_ret` (any other Monte Carlo step); for CFB1 the flag call; `EVP_Cipher` on the buffers
of the direction; on the Monte Carlo path the copy to `iv_ret_after` of what is found
through the pointer taken on the entry context; and the cleanup on the single-shot path and
at Monte Carlo step 9999. -/
theorem success_trace (E : EVP Ctx) (glb : Option Ctx) (t : ACVP_TEST_CASE)
    (hok : (app_des_handler E glb (some t)).ret = 0) :
    ∃ c tr cipher iv cout,
      ensure_ctx E glb = some (c, tr) ∧
      select_cipher t.symmetric = some (cipher, iv) ∧
      (app_des_handler E glb (some t)).cipher_out = some cout ∧
      (app_des_handler E glb (some t)).trace = tr ++
        (if t.symmetric.test_type = .ACVP_SYM_TEST_TYPE_MCT ∧ t.symmetric.mct_index ≠ 0 then
          [Event.memcpy_s .iv_ret (iv_register E c)]
        else
          [Event.EVP_CipherInit_ex cipher t.symmetric.key iv
              (if t.symmetric.direction = .ACVP_SYM_CIPH_DIR_ENCRYPT then 1 else 0),
            Event.EVP_CIPHER_CTX_set_padding 0]) ++
        (if t.symmetric.cipher = .ACVP_TDES_CFB1 then
          [Event.EVP_CIPHER_CTX_set_flags EVP_CIPH_FLAG_LENGTH_BITS] else []) ++
        [if t.symmetric.direction = .ACVP_SYM_CIPH_DIR_ENCRYPT then
            Event.EVP_Cipher .ct t.symmetric.pt t.symmetric.pt_len
          else Event.EVP_Cipher .pt t.symmetric.ct t.symmetric.ct_len] ++
        (if t.symmetric.test_type = .ACVP_SYM_TEST_TYPE_MCT then
          [Event.memcpy_s .iv_ret_after (iv_through E c cout)] else []) ++
        (if t.symmetric.test_type = .ACVP_SYM_TEST_TYPE_MCT ∧ t.symmetric.mct_index ≠ 9999
          then [] else [Event.EVP_CIPHER_CTX_cleanup]) := by
  by_cases hmct : t.symmetric.test_type = .ACVP_SYM_TEST_TYPE_MCT
  · obtain ⟨c, tr, cipher, iv, f1, hens, hsel, hdir, heq⟩ :=
      app_des_handler_mct_ok E glb t hmct hok
    obtain ⟨hout, -⟩ := mct_direction_some E cipher iv _ f1 hdir
    have htr := mct_direction_trace E cipher iv _ f1 hdir
    simp only [] at htr
    obtain ⟨-, -, -, hco, -, hn, -, hy⟩ := return_ok_mct_fields E f1 t.symmetric.mct_index
    refine ⟨c, tr, cipher, iv, f1.cipher_ctx, hens, hsel, ?_, ?_⟩
    · rw [heq]
      exact hco.trans hout
    · rw [heq]
      by_cases h9 : t.symmetric.mct_index = 9999
      · rw [hy h9, htr]
        by_cases h0 : t.symmetric.mct_index = 0 <;> simp [hmct, h9, h0]
      · rw [hn h9, htr]
        by_cases h0 : t.symmetric.mct_index = 0 <;> simp [hmct, h9, h0]
  · obtain ⟨c, tr, cipher, iv, f1, hens, hsel, hdir, heq⟩ :=
      app_des_handler_single_ok E glb t hmct hok
    obtain ⟨hout, -⟩ := single_direction_some E cipher iv _ f1 hdir
    have htr := single_direction_trace E cipher iv _ f1 hdir
    simp only [] at htr
    refine ⟨c, tr, cipher, iv, f1.cipher_ctx, hens, hsel, ?_, ?_⟩
    · rw [heq]
      simpa [return_ok, call_cleanup] using hout
    · rw [heq]
      simp [return_ok, call_cleanup, htr, hmct]

/-- C13: every successful single-shot call ends with `EVP_CIPHER_CTX_cleanup`, and the call
made after it does not depend on which single-shot case came before. Taking that the
engine's cleanup leaves one and the same blank context whatever the context was, for two
successful single-shot calls on any two cases from any two session states, the next call
of `app_des_handler` on a given test case has the same outcome (return value, output bytes
and lengths, calls made, session left) after the one as after the other. -/
theorem C13_single_shot_no_carry_over (E : EVP Ctx) (ga gb : Option Ctx)
    (ta tb : ACVP_TEST_CASE) (next : Option ACVP_TEST_CASE)
    (hclean : ∀ c1 c2, E.EVP_CIPHER_CTX_cleanup c1 = E.EVP_CIPHER_CTX_cleanup c2)
    (hsa : ta.symmetric.test_type ≠ .ACVP_SYM_TEST_TYPE_MCT)
    (hsb : tb.symmetric.test_type ≠ .ACVP_SYM_TEST_TYPE_MCT)
    (hoka : (app_des_handler E ga (some ta)).ret = 0)
    (hokb : (app_des_handler E gb (some tb)).ret = 0) :
    (app_des_handler E ga (some ta)).trace.getLast? = some Event.EVP_CIPHER_CTX_cleanup ∧
    (app_des_handler E gb (some tb)).trace.getLast? = some Event.EVP_CIPHER_CTX_cleanup ∧
    app_des_handler E (app_des_handler E ga (some ta)).glb_cipher_ctx next =
      app_des_handler E (app_des_handler E gb (some tb)).glb_cipher_ctx next ∧
    outputs (app_des_handler E (app_des_handler E ga (some ta)).glb_cipher_ctx next) =
      outputs (app_des_handler E (app_des_handler E gb (some tb)).glb_cipher_ctx next) := by
  obtain ⟨_, _, _, _, -, -, htra⟩ := single_call_trace E ga ta hsa hoka
  obtain ⟨_, _, _, _, -, -, htrb⟩ := single_call_trace E gb tb hsb hokb
  obtain ⟨ca, _, _, _, fa, -, -, -, heqa⟩ := app_des_handler_single_ok E ga ta hsa hoka
  obtain ⟨cb, _, _, _, fb, -, -, -, heqb⟩ := app_des_handler_single_ok E gb tb hsb hokb
  have hg : (app_des_handler E ga (some ta)).glb_cipher_ctx =
      (app_des_handler E gb (some tb)).glb_cipher_ctx := by
    rw [heqa, heqb]
    simp only [return_ok, call_cleanup]
    rw [hclean fa.cipher_ctx fb.cipher_ctx]
  refine ⟨?_, ?_, ?_, ?_⟩
  · rw [htra]
    simp
  · rw [htrb]
    simp
  · rw [hg]
  · rw [hg]

/-- C13 on the small engine: the single-shot case `tc_cbc` run after `tc_cbc` on a fresh
session, and after `tc_ofb` on a running session. -/
theorem C13_single_shot_no_carry_over_witness :
    (app_des_handler toyEVP none (some ⟨tc_cbc⟩)).trace.getLast? =
      some Event.EVP_CIPHER_CTX_cleanup ∧
    (app_des_handler toyEVP (some toy_running) (some ⟨tc_ofb⟩)).trace.getLast? =
      some Event.EVP_CIPHER_CTX_cleanup ∧
    app_des_handler toyEVP (app_des_handler toyEVP none (some ⟨tc_cbc⟩)).glb_cipher_ctx
        (some ⟨tc_cbc⟩) =
      app_des_handler toyEVP
        (app_des_handler toyEVP (some toy_running) (some ⟨tc_ofb⟩)).glb_cipher_ctx
        (some ⟨tc_cbc⟩) ∧
    outputs (app_des_handler toyEVP (app_des_handler toyEVP none (some ⟨tc_cbc⟩)).glb_cipher_ctx
        (some ⟨tc_cbc⟩)) =
      outputs (app_des_handler toyEVP
        (app_des_handler toyEVP (some toy_running) (some ⟨tc_ofb⟩)).glb_cipher_ctx
        (some ⟨tc_cbc⟩)) :=
  C13_single_shot_no_carry_over toyEVP none (some toy_running) ⟨tc_cbc⟩ ⟨tc_ofb⟩
    (some ⟨tc_cbc⟩) (fun _ _ => rfl) (by decide) (by decide) (by decide) (by decide)

/-- For ECB the `iv` field of the test case is never read: replacing it changes nothing in
the outcome of a call (the test case returned differs in that input field only). -/
theorem ecb_iv_not_read (E : EVP Ctx) (glb : Option Ctx) (t : ACVP_TEST_CASE)
    (iv2 : List Byte) (hecb : t.symmetric.cipher = .ACVP_TDES_ECB) :
    (app_des_handler E glb (some (with_iv t iv2))).ret = (app_des_handler E glb (some t)).ret ∧
    outputs (app_des_handler E glb (some (with_iv t iv2))) =
      outputs (app_des_handler E glb (some t)) ∧
    (app_des_handler E glb (some (with_iv t iv2))).glb_cipher_ctx =
      (app_des_handler E glb (some t)).glb_cipher_ctx ∧
    (app_des_handler E glb (some (with_iv t iv2))).trace =
      (app_des_handler E glb (some t)).trace ∧
    (app_des_handler E glb (some (with_iv t iv2))).cipher_in =
      (app_des_handler E glb (some t)).cipher_in ∧
    (app_des_handler E glb (some (with_iv t iv2))).cipher_out =
      (app_des_handler E glb (some t)).cipher_out := by
  by_cases hkey : t.symmetric.key_len = 192
  swap
  · simp [app_des_handler, hkey, fail_with, outputs, with_iv]
  cases hens : ensure_ctx E glb with
  | none => simp [app_des_handler, hkey, hens, fail_with, outputs, with_iv]
  | some p =>
    obtain ⟨c, tr⟩ := p
    by_cases htype : t.symmetric.test_type = .ACVP_SYM_TEST_TYPE_MCT
    · by_cases henc : t.symmetric.direction = .ACVP_SYM_CIPH_DIR_ENCRYPT <;>
        by_cases hdec : t.symmetric.direction = .ACVP_SYM_CIPH_DIR_DECRYPT <;>
        by_cases h0 : t.symmetric.mct_index = 0 <;>
        by_cases h9 : t.symmetric.mct_index = 9999 <;>
        first
        | (exfalso; omega)
        | exact absurd (henc.symm.trans hdec) (by decide)
        | simp [app_des_handler, hkey, hens, select_cipher, htype, mct_direction,
            call_set_flags_if_cfb1, call_set_padding, call_init, copy_iv_ret,
            copy_iv_ret_after, transform_encrypt, transform_decrypt, call_cleanup, fail_with,
            return_ok, outputs, with_iv, henc, hdec, h0, h9, hecb]
    · by_cases henc : t.symmetric.direction = .ACVP_SYM_CIPH_DIR_ENCRYPT <;>
        by_cases hdec : t.symmetric.direction = .ACVP_SYM_CIPH_DIR_DECRYPT <;>
        first
        | exact absurd (henc.symm.trans hdec) (by decide)
        | simp [app_des_handler, hkey, hens, select_cipher, htype, single_direction,
            call_set_flags_if_cfb1, call_set_padding, call_init,
            transform_encrypt, transform_decrypt, call_cleanup, fail_with, return_ok, outputs,
            with_iv, henc, hdec, hecb]

/-- No call of a failing run initialises the engine. -/
theorem failure_no_init (E : EVP Ctx) (glb : Option Ctx) (t : ACVP_TEST_CASE)
    (hfail : (app_des_handler E glb (some t)).ret ≠ 0)
    (cipher : EVP_CIPHER) (key : List Byte) (iv : Option (List Byte)) (enc : Int) :
    Event.EVP_CipherInit_ex cipher key iv enc ∉ (app_des_handler E glb (some t)).trace := by
  rcases failure_outcome E glb t hfail with
    ⟨-, heq⟩ | ⟨-, -, heq⟩ | ⟨c, tr, -, hens, -, heq⟩ | ⟨c, tr, -, hens, -, -, -, heq⟩
  · rw [heq]
    simp [fail_with]
  · rw [heq]
    simp [fail_with]
  · rw [heq]
    rcases ensure_ctx_trace E glb c tr hens with ⟨-, htr⟩ | ⟨-, -, htr⟩ <;> subst htr <;>
      simp [fail_with]
  · rw [heq]
    rcases ensure_ctx_trace E glb c tr hens with ⟨-, htr⟩ | ⟨-, -, htr⟩ <;> subst htr <;>
      simp [fail_with]

/-- Every `EVP_CipherInit_ex` call of a run carries the key of the case and the local `iv`
pointer of the mode switch: null for ECB, `tc->iv` otherwise. -/
theorem init_event_args (E : EVP Ctx) (glb : Option Ctx) (t : ACVP_TEST_CASE)
    (cipher : EVP_CIPHER) (key : List Byte) (iv : Option (List Byte)) (enc : Int)
    (hmem : Event.EVP_CipherInit_ex cipher key iv enc ∈ (app_des_handler E glb (some t)).trace) :
    key = t.symmetric.key ∧
      iv = (if t.symmetric.cipher = .ACVP_TDES_ECB then none else some t.symmetric.iv) := by
  by_cases hok : (app_des_handler E glb (some t)).ret = 0
  swap
  · exact absurd hmem (failure_no_init E glb t hok cipher key iv enc)
  obtain ⟨c, tr, cipher2, iv2, cout, hens, hsel, -, htr⟩ := success_trace E glb t hok
  have hiv := select_cipher_iv _ _ _ hsel
  rw [htr] at hmem
  rcases ensure_ctx_trace E glb c tr hens with ⟨-, h⟩ | ⟨-, -, h⟩ <;> subst h <;>
    by_cases hmct : t.symmetric.test_type = .ACVP_SYM_TEST_TYPE_MCT <;>
    by_cases h0 : t.symmetric.mct_index = 0 <;>
    by_cases h9 : t.symmetric.mct_index = 9999 <;>
    by_cases hcfb : t.symmetric.cipher = .ACVP_TDES_CFB1 <;>
    by_cases henc : t.symmetric.direction = .ACVP_SYM_CIPH_DIR_ENCRYPT <;>
    simp [hmct, h0, h9, hcfb, henc] at hmem <;>
    (obtain ⟨-, hk, hi, -⟩ := hmem; exact ⟨hk, hi.trans hiv⟩)

/-- C14: the `iv` field of the test case reaches the engine for every supported variant
except ECB. Every `EVP_CipherInit_ex` call of a run carries a null IV pointer when the
variant is ECB and the `iv` bytes of the case otherwise, and a successful call that
configures the engine (single-shot, or Monte Carlo step 0) makes such a call. For ECB the
`iv` field is not read at all: from the same session state, a case and the same case with
any other `iv` bytes give the same return value, the same output fields, the same session
state and the same calls. -/
theorem C14_iv_used_except_ecb (E : EVP Ctx) (glb : Option Ctx) (t : ACVP_TEST_CASE)
    (iv2 : List Byte) :
    (t.symmetric.cipher = .ACVP_TDES_ECB →
      (app_des_handler E glb (some (with_iv t iv2))).ret =
        (app_des_handler E glb (some t)).ret ∧
      outputs (app_des_handler E glb (some (with_iv t iv2))) =
        outputs (app_des_handler E glb (some t)) ∧
      (app_des_handler E glb (some (with_iv t iv2))).glb_cipher_ctx =
        (app_des_handler E glb (some t)).glb_cipher_ctx ∧
      (app_des_handler E glb (some (with_iv t iv2))).trace =
        (app_des_handler E glb (some t)).trace) ∧
    (∀ cipher key iv enc,
      Event.EVP_CipherInit_ex cipher key iv enc ∈ (app_des_handler E glb (some t)).trace →
      iv = (if t.symmetric.cipher = .ACVP_TDES_ECB then none else some t.symmetric.iv)) ∧
    ((app_des_handler E glb (some t)).ret = 0 →
      (t.symmetric.test_type ≠ .ACVP_SYM_TEST_TYPE_MCT ∨ t.symmetric.mct_index = 0) →
      ∃ cipher enc,
        Event.EVP_CipherInit_ex cipher t.symmetric.key
          (if t.symmetric.cipher = .ACVP_TDES_ECB then none else some t.symmetric.iv) enc ∈
          (app_des_handler E glb (some t)).trace) := by
  refine ⟨?_, ?_, ?_⟩
  · intro hecb
    obtain ⟨h1, h2, h3, h4, -⟩ := ecb_iv_not_read E glb t iv2 hecb
    exact ⟨h1, h2, h3, h4⟩
  · intro cipher key iv enc hmem
    exact (init_event_args E glb t cipher key iv enc hmem).2
  · intro hok hcfg
    obtain ⟨c, tr, cipher, iv, cout, -, hsel, -, htr⟩ := success_trace E glb t hok
    have hiv := select_cipher_iv _ _ _ hsel
    have hcond : ¬ (t.symmetric.test_type = .ACVP_SYM_TEST_TYPE_MCT ∧
        t.symmetric.mct_index ≠ 0) := by
      rintro ⟨h1, h2⟩
      rcases hcfg with h | h
      · exact h h1
      · exact h2 h
    refine ⟨cipher, if t.symmetric.direction = .ACVP_SYM_CIPH_DIR_ENCRYPT then 1 else 0, ?_⟩
    rw [htr, if_neg hcond, ← hiv]
    simp

/-- C14 at an ECB Monte Carlo case (step 0) on the small engine, its `iv` replaced by
eight bytes 1. -/
theorem C14_iv_used_except_ecb_witness :
    (app_des_handler toyEVP none (some (with_iv ⟨tc_mct_ecb⟩ [1, 1, 1, 1, 1, 1, 1, 1]))).ret =
      (app_des_handler toyEVP none (some ⟨tc_mct_ecb⟩)).ret ∧
    outputs (app_des_handler toyEVP none
        (some (with_iv ⟨tc_mct_ecb⟩ [1, 1, 1, 1, 1, 1, 1, 1]))) =
      outputs (app_des_handler toyEVP none (some ⟨tc_mct_ecb⟩)) ∧
    (app_des_handler toyEVP none
        (some (with_iv ⟨tc_mct_ecb⟩ [1, 1, 1, 1, 1, 1, 1, 1]))).glb_cipher_ctx =
      (app_des_handler toyEVP none (some ⟨tc_mct_ecb⟩)).glb_cipher_ctx ∧
    (app_des_handler toyEVP none (some (with_iv ⟨tc_mct_ecb⟩ [1, 1, 1, 1, 1, 1, 1, 1]))).trace =
      (app_des_handler toyEVP none (some ⟨tc_mct_ecb⟩)).trace :=
  (C14_iv_used_except_ecb toyEVP none ⟨tc_mct_ecb⟩ [1, 1, 1, 1, 1, 1, 1, 1]).1 rfl

/-- C15: on every successful call, single-shot or Monte Carlo at any step, the handler calls
`EVP_CIPHER_CTX_set_flags(ctx, EVP_CIPH_FLAG_LENGTH_BITS)` if and only if the variant is
CFB1. For CFB1 it is called exactly once, as the call right before `EVP_Cipher`; for every
other variant no flag call is made at all. -/
theorem C15_bit_flag_iff_cfb1 (E : EVP Ctx) (glb : Option Ctx) (t : ACVP_TEST_CASE)
    (hok : (app_des_handler E glb (some t)).ret = 0) :
    ((∃ fl, Event.EVP_CIPHER_CTX_set_flags fl ∈ (app_des_handler E glb (some t)).trace) ↔
      t.symmetric.cipher = .ACVP_TDES_CFB1) ∧
    (t.symmetric.cipher = .ACVP_TDES_CFB1 →
      ∃ pre out inp inl post,
        (app_des_handler E glb (some t)).trace =
          pre ++ [Event.EVP_CIPHER_CTX_set_flags EVP_CIPH_FLAG_LENGTH_BITS,
            Event.EVP_Cipher out inp inl] ++ post ∧
        (∀ fl, Event.EVP_CIPHER_CTX_set_flags fl ∉ pre) ∧
        (∀ fl, Event.EVP_CIPHER_CTX_set_flags fl ∉ post) ∧
        (∀ o i l, Event.EVP_Cipher o i l ∉ pre) ∧
        (∀ o i l, Event.EVP_Cipher o i l ∉ post)) ∧
    (t.symmetric.cipher ≠ .ACVP_TDES_CFB1 →
      ∀ fl, Event.EVP_CIPHER_CTX_set_flags fl ∉ (app_des_handler E glb (some t)).trace) := by
  obtain ⟨c, tr, cipher, iv, cout, hens, -, -, htr⟩ := success_trace E glb t hok
  have htr_flags : ∀ fl, Event.EVP_CIPHER_CTX_set_flags fl ∉ tr := by
    intro fl
    rcases ensure_ctx_trace E glb c tr hens with ⟨-, h⟩ | ⟨-, -, h⟩ <;> subst h <;> simp
  have htr_cipher : ∀ o i l, Event.EVP_Cipher o i l ∉ tr := by
    intro o i l
    rcases ensure_ctx_trace E glb c tr hens with ⟨-, h⟩ | ⟨-, -, h⟩ <;> subst h <;> simp
  have hno : t.symmetric.cipher ≠ .ACVP_TDES_CFB1 →
      ∀ fl, Event.EVP_CIPHER_CTX_set_flags fl ∉ (app_des_handler E glb (some t)).trace := by
    intro hcfb fl
    rw [htr]
    by_cases hmct : t.symmetric.test_type = .ACVP_SYM_TEST_TYPE_MCT <;>
      by_cases h0 : t.symmetric.mct_index = 0 <;>
      by_cases h9 : t.symmetric.mct_index = 9999 <;>
      by_cases henc : t.symmetric.direction = .ACVP_SYM_CIPH_DIR_ENCRYPT <;>
      simp [hmct, h0, h9, hcfb, henc, htr_flags]
  have hyes : t.symmetric.cipher = .ACVP_TDES_CFB1 →
      ∃ pre out inp inl post,
        (app_des_handler E glb (some t)).trace =
          pre ++ [Event.EVP_CIPHER_CTX_set_flags EVP_CIPH_FLAG_LENGTH_BITS,
            Event.EVP_Cipher out inp inl] ++ post ∧
        (∀ fl, Event.EVP_CIPHER_CTX_set_flags fl ∉ pre) ∧
        (∀ fl, Event.EVP_CIPHER_CTX_set_flags fl ∉ post) ∧
        (∀ o i l, Event.EVP_Cipher o i l ∉ pre) ∧
        (∀ o i l, Event.EVP_Cipher o i l ∉ post) := by
    intro hcfb
    refine ⟨tr ++
        (if t.symmetric.test_type = .ACVP_SYM_TEST_TYPE_MCT ∧ t.symmetric.mct_index ≠ 0 then
          [Event.memcpy_s .iv_ret (iv_register E c)]
        else
          [Event.EVP_CipherInit_ex cipher t.symmetric.key iv
              (if t.symmetric.direction = .ACVP_SYM_CIPH_DIR_ENCRYPT then 1 else 0),
            Event.EVP_CIPHER_CTX_set_padding 0]),
      if t.symmetric.direction = .ACVP_SYM_CIPH_DIR_ENCRYPT then .ct else .pt,
      if t.symmetric.direction = .ACVP_SYM_CIPH_DIR_ENCRYPT then t.symmetric.pt
        else t.symmetric.ct,
      if t.symmetric.direction = .ACVP_SYM_CIPH_DIR_ENCRYPT then t.symmetric.pt_len
        else t.symmetric.ct_len,
      (if t.symmetric.test_type = .ACVP_SYM_TEST_TYPE_MCT then
          [Event.memcpy_s .iv_ret_after (iv_through E c cout)] else []) ++
        (if t.symmetric.test_type = .ACVP_SYM_TEST_TYPE_MCT ∧ t.symmetric.mct_index ≠ 9999
          then [] else [Event.EVP_CIPHER_CTX_cleanup]), ?_, ?_, ?_, ?_, ?_⟩
    · rw [htr]
      by_cases henc : t.symmetric.direction = .ACVP_SYM_CIPH_DIR_ENCRYPT <;> simp [hcfb, henc]
    · intro fl
      by_cases hmct : t.symmetric.test_type = .ACVP_SYM_TEST_TYPE_MCT <;>
        by_cases h0 : t.symmetric.mct_index = 0 <;> simp [hmct, h0, htr_flags]
    · intro fl
      by_cases hmct : t.symmetric.test_type = .ACVP_SYM_TEST_TYPE_MCT <;>
        by_cases h9 : t.symmetric.mct_index = 9999 <;> simp [hmct, h9]
    · intro o i l
      by_cases hmct : t.symmetric.test_type = .ACVP_SYM_TEST_TYPE_MCT <;>
        by_cases h0 : t.symmetric.mct_index = 0 <;> simp [hmct, h0, htr_cipher]
    · intro o i l
      by_cases hmct : t.symmetric.test_type = .ACVP_SYM_TEST_TYPE_MCT <;>
        by_cases h9 : t.symmetric.mct_index = 9999 <;> simp [hmct, h9]
  refine ⟨⟨?_, ?_⟩, hyes, hno⟩
  · rintro ⟨fl, hfl⟩
    by_contra hcfb
    exact hno hcfb fl hfl
  · intro hcfb
    obtain ⟨pre, out, inp, inl, post, hh, -⟩ := hyes hcfb
    exact ⟨EVP_CIPH_FLAG_LENGTH_BITS, by rw [hh]; simp⟩

/-- C15 at step 3 of a CFB1 Monte Carlo chain on a running session of the small engine. -/
theorem C15_bit_flag_iff_cfb1_witness :
    ((∃ fl, Event.EVP_CIPHER_CTX_set_flags fl ∈
        (app_des_handler toyEVP (some toy_running) (some ⟨tc_mct 3⟩)).trace) ↔
      (tc_mct 3).cipher = .ACVP_TDES_CFB1) ∧
    (app_des_handler toyEVP (some toy_running) (some ⟨tc_mct 3⟩)).trace =
      [Event.memcpy_s .iv_ret (some [8, 7, 6, 5, 4, 3, 2, 1]),
        Event.EVP_CIPHER_CTX_set_flags EVP_CIPH_FLAG_LENGTH_BITS,
        Event.EVP_Cipher .ct [10, 20, 30, 40, 50, 60, 70, 255] 8,
        Event.memcpy_s .iv_ret_after (some [11, 21, 31, 41, 51, 61, 71, 0])] :=
  ⟨(C15_bit_flag_iff_cfb1 toyEVP (some toy_running) ⟨tc_mct 3⟩ (by decide)).1, by decide⟩

/-- On a Monte Carlo step other than 0 the `key` and `iv` fields of the test case are not
read: replacing them changes nothing in the outcome of the call. -/
theorem mct_later_step_key_iv_not_read (E : EVP Ctx) (glb : Option Ctx) (t : ACVP_TEST_CASE)
    (key2 iv2 : List Byte)
    (hmct : t.symmetric.test_type = .ACVP_SYM_TEST_TYPE_MCT)
    (h0 : t.symmetric.mct_index ≠ 0) :
    (app_des_handler E glb (some (with_key_iv t key2 iv2))).ret =
      (app_des_handler E glb (some t)).ret ∧
    outputs (app_des_handler E glb (some (with_key_iv t key2 iv2))) =
      outputs (app_des_handler E glb (some t)) ∧
    (app_des_handler E glb (some (with_key_iv t key2 iv2))).glb_cipher_ctx =
      (app_des_handler E glb (some t)).glb_cipher_ctx ∧
    (app_des_handler E glb (some (with_key_iv t key2 iv2))).trace =
      (app_des_handler E glb (some t)).trace ∧
    (app_des_handler E glb (some (with_key_iv t key2 iv2))).cipher_in =
      (app_des_handler E glb (some t)).cipher_in ∧
    (app_des_handler E glb (some (with_key_iv t key2 iv2))).cipher_out =
      (app_des_handler E glb (some t)).cipher_out := by
  by_cases hkey : t.symmetric.key_len = 192
  swap
  · simp [app_des_handler, hkey, fail_with, outputs, with_key_iv]
  cases hens : ensure_ctx E glb with
  | none => simp [app_des_handler, hkey, hens, fail_with, outputs, with_key_iv]
  | some p =>
    obtain ⟨c, tr⟩ := p
    cases hc : t.symmetric.cipher <;>
      by_cases henc : t.symmetric.direction = .ACVP_SYM_CIPH_DIR_ENCRYPT <;>
      by_cases hdec : t.symmetric.direction = .ACVP_SYM_CIPH_DIR_DECRYPT <;>
      by_cases h9 : t.symmetric.mct_index = 9999 <;>
      first
      | exact absurd (henc.symm.trans hdec) (by decide)
      | simp [app_des_handler, hkey, hens, select_cipher, hmct, mct_direction,
          call_set_flags_if_cfb1, copy_iv_ret,
          copy_iv_ret_after, transform_encrypt, transform_decrypt, call_cleanup, fail_with,
          return_ok, outputs, with_key_iv, henc, hdec, h0, h9, hc]

/-- C16: a Monte Carlo call with `mct_index` other than 0 never calls `EVP_CipherInit_ex`,
and its result does not depend on the `key` and `iv` fields of its test case: from the same
session state, a case and the same case with any other `key` and `iv` bytes give the same
return value, the same output fields (`ct`, `pt`, lengths, `iv_ret`, `iv_ret_after`), the
same session state and the same calls. -/
theorem C16_mct_later_step_ignores_key_iv (E : EVP Ctx) (glb : Option Ctx)
    (t : ACVP_TEST_CASE) (key2 iv2 : List Byte)
    (hmct : t.symmetric.test_type = .ACVP_SYM_TEST_TYPE_MCT)
    (h0 : t.symmetric.mct_index ≠ 0) :
    (∀ cipher key iv enc,
      Event.EVP_CipherInit_ex cipher key iv enc ∉ (app_des_handler E glb (some t)).trace) ∧
    (app_des_handler E glb (some (with_key_iv t key2 iv2))).ret =
      (app_des_handler E glb (some t)).ret ∧
    outputs (app_des_handler E glb (some (with_key_iv t key2 iv2))) =
      outputs (app_des_handler E glb (some t)) ∧
    (app_des_handler E glb (some (with_key_iv t key2 iv2))).glb_cipher_ctx =
      (app_des_handler E glb (some t)).glb_cipher_ctx ∧
    (app_des_handler E glb (some (with_key_iv t key2 iv2))).trace =
      (app_des_handler E glb (some t)).trace := by
  obtain ⟨h1, h2, h3, h4, -⟩ := mct_later_step_key_iv_not_read E glb t key2 iv2 hmct h0
  refine ⟨?_, h1, h2, h3, h4⟩
  intro cipher key iv enc hmem
  by_cases hok : (app_des_handler E glb (some t)).ret = 0
  swap
  · exact failure_no_init E glb t hok cipher key iv enc hmem
  obtain ⟨c, tr, cipher2, iv3, cout, hens, -, -, htr⟩ := success_trace E glb t hok
  rw [htr] at hmem
  rcases ensure_ctx_trace E glb c tr hens with ⟨-, h⟩ | ⟨-, -, h⟩ <;> subst h <;>
    by_cases h9 : t.symmetric.mct_index = 9999 <;>
    by_cases hcfb : t.symmetric.cipher = .ACVP_TDES_CFB1 <;>
    by_cases henc : t.symmetric.direction = .ACVP_SYM_CIPH_DIR_ENCRYPT <;>
    simp [hmct, h0, h9, hcfb, henc] at hmem

/-- C16 at step 3 of a CFB1 Monte Carlo chain on a running session of the small engine,
with another key and another IV in the case. -/
theorem C16_mct_later_step_ignores_key_iv_witness :
    (app_des_handler toyEVP (some toy_running)
        (some (with_key_iv ⟨tc_mct 3⟩ (List.replicate 24 1) [0, 0, 0, 0, 0, 0, 0, 0]))).ret =
      (app_des_handler toyEVP (some toy_running) (some ⟨tc_mct 3⟩)).ret ∧
    outputs (app_des_handler toyEVP (some toy_running)
        (some (with_key_iv ⟨tc_mct 3⟩ (List.replicate 24 1) [0, 0, 0, 0, 0, 0, 0, 0]))) =
      outputs (app_des_handler toyEVP (some toy_running) (some ⟨tc_mct 3⟩)) ∧
    (app_des_handler toyEVP (some toy_running)
        (some (with_key_iv ⟨tc_mct 3⟩ (List.replicate 24 1)
          [0, 0, 0, 0, 0, 0, 0, 0]))).glb_cipher_ctx =
      (app_des_handler toyEVP (some toy_running) (some ⟨tc_mct 3⟩)).glb_cipher_ctx :=
  ⟨(C16_mct_later_step_ignores_key_iv toyEVP (some toy_running) ⟨tc_mct 3⟩
      (List.replicate 24 1) [0, 0, 0, 0, 0, 0, 0, 0] rfl (by decide)).2.1,
    (C16_mct_later_step_ignores_key_iv toyEVP (some toy_running) ⟨tc_mct 3⟩
      (List.replicate 24 1) [0, 0, 0, 0, 0, 0, 0, 0] rfl (by decide)).2.2.1,
    (C16_mct_later_step_ignores_key_iv toyEVP (some toy_running) ⟨tc_mct 3⟩
      (List.replicate 24 1) [0, 0, 0, 0, 0, 0, 0, 0] rfl (by decide)).2.2.2.1⟩

/-- C17: the last step differs from a middle step by the cleanup only. From the same session
state, on a Monte Carlo case taken once with `mct_index` 9999 and once with an `mct_index`
`i` that is neither 0 nor 9999, when the call at 9999 succeeds: the call at `i` succeeds
too; both write the same output fields (`iv_ret` included) and run `EVP_Cipher` from the
same context to the same context; the calls of the step 9999 are the calls of step `i`
followed by one `EVP_CIPHER_CTX_cleanup`, which step `i` does not call; and step `i` leaves
in the session the context the transform left, step 9999 that context cleaned up. -/
theorem C17_last_step_is_middle_step_plus_cleanup (E : EVP Ctx) (glb : Option Ctx)
    (t : ACVP_TEST_CASE) (i : Nat)
    (hmct : t.symmetric.test_type = .ACVP_SYM_TEST_TYPE_MCT)
    (hi0 : i ≠ 0) (hi9 : i ≠ 9999)
    (hok : (app_des_handler E glb (some (with_mct_index t 9999))).ret = 0) :
    (app_des_handler E glb (some (with_mct_index t i))).ret = 0 ∧
    outputs (app_des_handler E glb (some (with_mct_index t 9999))) =
      outputs (app_des_handler E glb (some (with_mct_index t i))) ∧
    (app_des_handler E glb (some (with_mct_index t 9999))).cipher_in =
      (app_des_handler E glb (some (with_mct_index t i))).cipher_in ∧
    (app_des_handler E glb (some (with_mct_index t 9999))).cipher_out =
      (app_des_handler E glb (some (with_mct_index t i))).cipher_out ∧
    (app_des_handler E glb (some (with_mct_index t 9999))).trace =
      (app_des_handler E glb (some (with_mct_index t i))).trace ++
        [Event.EVP_CIPHER_CTX_cleanup] ∧
    Event.EVP_CIPHER_CTX_cleanup ∉ (app_des_handler E glb (some (with_mct_index t i))).trace ∧
    (app_des_handler E glb (some (with_mct_index t i))).glb_cipher_ctx =
      (app_des_handler E glb (some (with_mct_index t i))).cipher_out ∧
    (app_des_handler E glb (some (with_mct_index t 9999))).glb_cipher_ctx =
      (app_des_handler E glb (some (with_mct_index t i))).glb_cipher_ctx.map
        E.EVP_CIPHER_CTX_cleanup := by
  obtain ⟨hkey, hens_some, hsel_some, hdir⟩ :=
    (app_des_handler_ret E glb (with_mct_index t 9999)).1.mp hok
  have hkey : t.symmetric.key_len = 192 := hkey
  have hsel_some : (select_cipher t.symmetric).isSome = true := hsel_some
  have hdir : t.symmetric.direction = .ACVP_SYM_CIPH_DIR_ENCRYPT ∨
      t.symmetric.direction = .ACVP_SYM_CIPH_DIR_DECRYPT := hdir
  cases hens : ensure_ctx E glb with
  | none => simp [hens] at hens_some
  | some p =>
    obtain ⟨c, tr⟩ := p
    have htr_clean : Event.EVP_CIPHER_CTX_cleanup ∉ tr := by
      rcases ensure_ctx_trace E glb c tr hens with ⟨-, h⟩ | ⟨-, -, h⟩ <;> subst h <;> simp
    cases hc : t.symmetric.cipher <;>
      first
      | (simp [select_cipher, hc] at hsel_some; done)
      | (rcases hdir with hd | hd <;>
          simp [app_des_handler, hkey, hens, select_cipher, hmct, mct_direction,
            call_set_flags_if_cfb1, copy_iv_ret,
            copy_iv_ret_after, transform_encrypt, transform_decrypt, call_cleanup, fail_with,
            return_ok, outputs, with_mct_index, hd, hi0, hi9, hc, htr_clean])

/-- C17 on a running session of the small engine, step 9999 against step 5000 of a CFB1
encrypt chain. -/
theorem C17_last_step_is_middle_step_plus_cleanup_witness :
    (app_des_handler toyEVP (some toy_running) (some (with_mct_index ⟨tc_mct 1⟩ 5000))).ret = 0 ∧
    outputs (app_des_handler toyEVP (some toy_running)
        (some (with_mct_index ⟨tc_mct 1⟩ 9999))) =
      outputs (app_des_handler toyEVP (some toy_running)
        (some (with_mct_index ⟨tc_mct 1⟩ 5000))) ∧
    (app_des_handler toyEVP (some toy_running) (some (with_mct_index ⟨tc_mct 1⟩ 9999))).trace =
      (app_des_handler toyEVP (some toy_running)
        (some (with_mct_index ⟨tc_mct 1⟩ 5000))).trace ++ [Event.EVP_CIPHER_CTX_cleanup] :=
  ⟨(C17_last_step_is_middle_step_plus_cleanup toyEVP (some toy_running) ⟨tc_mct 1⟩ 5000 rfl
      (by decide) (by decide) (by decide)).1,
    (C17_last_step_is_middle_step_plus_cleanup toyEVP (some toy_running) ⟨tc_mct 1⟩ 5000 rfl
      (by decide) (by decide) (by decide)).2.1,
    (C17_last_step_is_middle_step_plus_cleanup toyEVP (some toy_running) ⟨tc_mct 1⟩ 5000 rfl
      (by decide) (by decide) (by decide)).2.2.2.2.1⟩

end AppDes
